import Mathlib

/-!
Verification of the IDML news extractor (`native_parser.py`).

The Python source is shallowly embedded below.  Strings are modelled as
`List Char` (ASCII fragment: the documents handled are ASCII newspaper text,
and Python's `[A-Z]`, `[a-z]`, `\d`, `\w`, `\s` classes are ASCII or behave
so on these inputs).  Python floats carrying point sizes and scores are
modelled as `ℚ`.  Python dictionaries become structures; a dictionary key
that is present only on some code paths becomes an `Option` field.
Regular expressions are embedded through a small backtracking engine whose
alternative order reproduces Python's `re` semantics (leftmost position,
left alternative first, greedy repetition first).
-/

namespace Idml

/-! ### Python string primitives (ASCII fragment) -/

/-- Python whitespace (`\s`, `str.strip()` default), ASCII fragment. -/
def isPySpace (c : Char) : Bool :=
  c == ' ' || c == '\t' || c == '\n' || c == '\r' || c == '\x0b' || c == '\x0c'

/-- Python `str.strip()`. -/
def pyStrip (s : List Char) : List Char :=
  ((s.dropWhile isPySpace).reverse.dropWhile isPySpace).reverse

/-- Python `str.lower()` (ASCII fragment). -/
def lowerL (s : List Char) : List Char := s.map Char.toLower

/-- Python `\w` (ASCII fragment): letters, digits, underscore. -/
def isWordChar (c : Char) : Bool := c.isAlphanum || c == '_'

/-- Case-insensitive character comparison (ASCII fragment). -/
def ciCharEq (a b : Char) : Bool := a.toLower == b.toLower

/-- Case-insensitive prefix test (ASCII fragment). -/
def startsWithCI : List Char → List Char → Bool
  | [], _ => true
  | _ :: _, [] => false
  | p :: ps, c :: cs => ciCharEq p c && startsWithCI ps cs

/-- Python `needle in haystack` (substring containment). -/
def containsSub (haystack needle : List Char) : Bool :=
  (List.range (haystack.length + 1)).any
    (fun i => (haystack.drop i).take needle.length == needle)

/-! ### A small backtracking regular-expression engine

`reMatch` returns the list of possible suffixes left over after a match of
the pattern at the start of the input, in Python-backtracking priority
order: a sequence enumerates the left component's alternatives outermost,
an alternation tries the left branch first, and a greedy star tries more
iterations first (iterations matching the empty word are discarded, as all
repetition bodies in the source consume input).  The fuel argument bounds
star unfolding; it is always called with fuel exceeding the input length,
where it computes the exact match set. -/

inductive RE where
  | eps : RE
  | cls (p : Char → Bool) : RE
  | seq (a b : RE) : RE
  | alt (a b : RE) : RE
  | star (r : RE) : RE
  /-- Zero-width: next char is a non-word char, or end of input.  This is
  Python's `\b` in the position just after a word character. -/
  | nwb : RE
  /-- Zero-width: Python `$` — end of input, or just before one final
  newline. -/
  | eol : RE

/-- One layer of the matcher, structurally recursive on the pattern; a
star hands the strictly shorter rest of the input to `recur`, which the
fuelled wrapper `reMatch` ties back to itself at smaller fuel. -/
def reMatchA (recur : RE → List Char → List (List Char)) :
    RE → List Char → List (List Char)
  | .eps, s => [s]
  | .cls p, s =>
    match s with
    | [] => []
    | c :: rest => if p c then [rest] else []
  | .seq a b, s => (reMatchA recur a s).flatMap (fun s2 => reMatchA recur b s2)
  | .alt a b, s => reMatchA recur a s ++ reMatchA recur b s
  | .nwb, s =>
    match s with
    | [] => [[]]
    | c :: rest => if isWordChar c then [] else [c :: rest]
  | .eol, s =>
    match s with
    | [] => [[]]
    | [c] => if c == '\n' then [[c]] else []
    | _ => []
  | .star r, s =>
    ((reMatchA recur r s).filter (fun s2 => s2.length < s.length)).flatMap
      (fun s2 => recur (.star r) s2) ++ [s]

def reMatch : Nat → RE → List Char → List (List Char)
  | 0, r, s => reMatchA (fun _ _ => []) r s
  | n + 1, r, s => reMatchA (reMatch n) r s

/-- Suffixes after an anchored match (Python `re.match`), priority order. -/
def reSuffixes (r : RE) (s : List Char) : List (List Char) :=
  reMatch (s.length + 1) r s

/-- Truthiness of Python `re.match(r, s)`. -/
def reTest (r : RE) (s : List Char) : Bool := !(reSuffixes r s).isEmpty

/-- Python `re.sub('^…', '', s)` for an anchored pattern: drop the prefix
consumed by the engine's first (highest-priority) match, if any. -/
def reSubAnchored (r : RE) (s : List Char) : List Char :=
  match reSuffixes r s with
  | [] => s
  | s2 :: _ => s2

/-- `re.match(pre (x) rest, s).group(1)`: the span consumed by `x` in the
first successful backtracking assignment. -/
def reGroupAfter (pre x rest : RE) (s : List Char) : Option (List Char) :=
  (reSuffixes pre s).findSome? fun s0 =>
    ((reSuffixes x s0).find? (fun s1 => reTest rest s1)).map
      (fun s1 => s0.take (s0.length - s1.length))

/-- One-or-more repetition (`+`). -/
def rePlus (r : RE) : RE := .seq r (.star r)

/-- Zero-or-one repetition (`?`), greedy. -/
def reOpt (r : RE) : RE := .alt r .eps

/-- Case-sensitive literal. -/
def reLit : List Char → RE
  | [] => .eps
  | c :: cs => .seq (.cls (fun d => d == c)) (reLit cs)

/-- Case-insensitive literal (Python `re.IGNORECASE`). -/
def reLitCI : List Char → RE
  | [] => .eps
  | c :: cs => .seq (.cls (fun d => ciCharEq d c)) (reLitCI cs)

/-- Chain a list of regexes in sequence. -/
def reSeqs (l : List RE) : RE := l.foldr .seq .eps

/-- `re.findall` for a pattern of the form `\bX\b` where `X` starts with a
word character: scan positions left to right, require the position to be
preceded by a non-word character (or be the start), take the engine's first
match, and continue after it (non-overlapping). -/
def scanFindall : Nat → Bool → RE → List Char → List (List Char)
  | 0, _, _, _ => []
  | _ + 1, _, _, [] => []
  | n + 1, prevWord, r, c :: rest =>
    if prevWord then scanFindall n (isWordChar c) r rest
    else
      match reSuffixes r (c :: rest) with
      | [] => scanFindall n (isWordChar c) r rest
      | s2 :: _ =>
        if s2.length < (c :: rest).length then
          (c :: rest).take ((c :: rest).length - s2.length) ::
            scanFindall n true r s2
        else scanFindall n (isWordChar c) r rest

def reFindallB (r : RE) (s : List Char) : List (List Char) :=
  scanFindall (s.length + 1) false r s

/-- `re.search` start position for a `\bX\b` pattern (same scan as
`reFindallB`), used for the function-word fallback. -/
def scanSearchPos : Nat → Nat → Bool → RE → List Char → Option Nat
  | 0, _, _, _, _ => none
  | _ + 1, _, _, _, [] => none
  | n + 1, pos, prevWord, r, c :: rest =>
    if prevWord then scanSearchPos n (pos + 1) (isWordChar c) r rest
    else if (reSuffixes r (c :: rest)).isEmpty then
      scanSearchPos n (pos + 1) (isWordChar c) r rest
    else some pos

def reSearchPosB (r : RE) (s : List Char) : Option Nat :=
  scanSearchPos (s.length + 1) 0 false r s

/-! ### Common character classes and sub-patterns of the source regexes -/

def clsUpper : RE := .cls Char.isUpper
def clsLower : RE := .cls Char.isLower
def clsLetter : RE := .cls Char.isAlpha
def clsDigit : RE := .cls Char.isDigit
def clsSpace : RE := .cls isPySpace
def clsDot : RE := .cls (fun c => !(c == '\n'))
def wsPlus : RE := rePlus clsSpace
def wsStar : RE := .star clsSpace

/-- `[A-Z][a-z]+` — one capitalized word. -/
def reName : RE := .seq clsUpper (rePlus clsLower)

/-- `[A-Z][a-z]+(?:\s+[A-Z][a-z]+)*` — capitalized words separated by
whitespace. -/
def reNameSeq : RE := .seq reName (.star (.seq wsPlus reName))

/-! ### String-literal constants (as character lists) -/

def sBold : List Char := "Bold".toList
def sItalic : List Char := "Italic".toList
def sRegular : List Char := "Regular".toList
def sHeadline : List Char := "headline".toList
def sBodyContent : List Char := "body_content".toList
def sUnknown : List Char := "unknown".toList
def sAnd : List Char := "and".toList
def sBy : List Char := "By".toList
def sComma : List Char := ",".toList
def sHyphen : List Char := "-".toList
def sAt : List Char := "@".toList
def sHttp : List Char := "http".toList
def sNews : List Char := "news".toList
def sAllStoriesContinuedOn : List Char := "All stories continued on".toList
def sBulletLR : List Char := "•L-R:".toList
def sMondayComma : List Char := "MONDAY,".toList
def sPhotoColon : List Char := "Photo:".toList
def sContinuedFrom : List Char := "Continued from".toList

/-! ### Story documents

A story file is structured markup: the model keeps exactly the nodes the
source reads.  `Root.storySelf` is `root.find('.//Story').get('Self', '')`;
paragraph containers are `ParagraphStyleRange` elements, each holding
`CharacterStyleRange` runs, each holding `Content` text nodes and `Br`
line-break nodes in document order.  The `PointSize` attribute is kept
already parsed (`none` models an absent or unparseable attribute, which the
source defaults to 12.0); `FontStyle` defaults to "Regular" when absent. -/

inductive XmlChild where
  | content (text : Option (List Char)) : XmlChild
  | br : XmlChild
deriving DecidableEq

structure CharRange where
  pointSize : Option ℚ
  fontStyle : Option (List Char)
  appliedCharacterStyle : List Char
  children : List XmlChild
deriving DecidableEq

structure ParaRange where
  appliedParagraphStyle : List Char
  charRanges : List CharRange
deriving DecidableEq

structure Root where
  storySelf : List Char
  paraRanges : List ParaRange
deriving DecidableEq

/-- Stand-in for `xml.etree.ElementTree.ParseError`: raw story bytes that
are not well-formed markup fail to produce a `Root` at all. -/
inductive ParseErr where
  | malformed : ParseErr
deriving DecidableEq

/-- `char_range.findall("Content")`: the text of each direct `Content`
child, in order. -/
def contentTexts (cr : CharRange) : List (Option (List Char)) :=
  cr.children.filterMap fun ch =>
    match ch with
    | .content t => some t
    | .br => none

/-- One content element of a parsed story (`content_item` dict). -/
structure ContentElement where
  text : List Char
  fontSize : ℚ
  fontStyle : List Char
  isBold : Bool
  isItalic : Bool
  appliedStyle : List Char
  paragraphStyle : List Char
  paragraphRangeIndex : Nat
deriving DecidableEq

/-- A parsed story (the dict returned by `_parse_news_story`). -/
structure Parsed where
  storyId : List Char
  filename : List Char
  contentElements : List ContentElement
  rawContent : List Char
  fullText : List Char
  paragraphs : List (List Char)
  category : List Char
deriving DecidableEq

/-! ### `_is_valid_category` / `_extract_category_from_story` /
`_is_category_marker` -/

def categoryCharAllowed (c : Char) : Bool :=
  c.isAlphanum || isPySpace c || c == '-' || c == '_' || c == '&' || c == ',' || c == '.'

def isValidCategory (text : List Char) : Bool :=
  let t := pyStrip text
  if t.isEmpty then false
  else if !(t.any Char.isAlpha) then false
  else if !(t.all categoryCharAllowed) then false
  else if t.length < 1 || 30 < t.length then false
  else if containsSub t sAt || containsSub (lowerL t) sHttp then false
  else true

def extractCategoryFromStory (root : Root) : List Char :=
  match root.paraRanges with
  | [pr] =>
    match pr.charRanges with
    | [cr] =>
      match contentTexts cr with
      | [some (c :: cs)] =>
        let t := pyStrip (c :: cs)
        if 0 < t.length && t.length ≤ 30 && !(t.take 1 == ['\n']) &&
            isValidCategory t then t
        else []
      | _ => []
    | _ => []
  | _ => []

def isCategoryMarker (root : Root) : Bool :=
  match root.paraRanges with
  | [pr] =>
    match pr.charRanges with
    | [cr] =>
      match contentTexts cr with
      | [some (c :: cs)] =>
        let t := pyStrip (c :: cs)
        0 < t.length && t.length ≤ 30
      | _ => false
    | _ => false
  | _ => false

/-! ### `_parse_news_story` -/

/-- Loop body for `for child in char_range`: state is
(content_data, paragraphs, para_content). -/
def childStep (paraIdx : Nat) (pr : ParaRange) (cr : CharRange)
    (st : List ContentElement × List (List Char) × List (List Char))
    (ch : XmlChild) :
    List ContentElement × List (List Char) × List (List Char) :=
  let (cd, paras, pc) := st
  match ch with
  | .content none => st
  | .content (some []) => st
  | .content (some (c :: cs)) =>
    let t := pyStrip (c :: cs)
    if t.isEmpty then st
    else
      let style := cr.fontStyle.getD sRegular
      let e : ContentElement :=
        { text := t
          fontSize := cr.pointSize.getD 12
          fontStyle := style
          isBold := containsSub style sBold
          isItalic := containsSub style sItalic
          appliedStyle := cr.appliedCharacterStyle
          paragraphStyle := pr.appliedParagraphStyle
          paragraphRangeIndex := paraIdx }
      (cd ++ [e], paras, pc ++ [t])
  | .br =>
    if pc.isEmpty then st
    else (cd, paras ++ [List.intercalate [' '] pc], [])

/-- One `ParagraphStyleRange`: run all its runs' children, then flush any
remaining paragraph buffer. -/
def paraStep (paraIdx : Nat) (pr : ParaRange)
    (cd : List ContentElement) (paras : List (List Char)) :
    List ContentElement × List (List Char) :=
  let (cd2, paras2, pc2) :=
    pr.charRanges.foldl
      (fun st cr => cr.children.foldl (childStep paraIdx pr cr) st)
      (cd, paras, [])
  (cd2, if pc2.isEmpty then paras2 else paras2 ++ [List.intercalate [' '] pc2])

/-- The paragraph walk of `_parse_news_story`: content elements, output
paragraphs, and the final 1-based paragraph index. -/
def parseFold (root : Root) :
    List ContentElement × List (List Char) × Nat :=
  root.paraRanges.foldl
    (fun (st : List ContentElement × List (List Char) × Nat) pr =>
      let (cd, paras, idx) := st
      let idx2 := idx + 1
      let (cd2, paras2) := paraStep idx2 pr cd paras
      (cd2, paras2, idx2))
    ([], [], 0)

/-- `_parse_news_story` on an already well-formed document. -/
def parseNewsStoryRoot (root : Root) (filename : List Char) : Option Parsed :=
  let category := extractCategoryFromStory root
  let (cd, paras, _) := parseFold root
  if cd.isEmpty then none
  else
    some
      { storyId := root.storySelf
        filename := filename
        contentElements := cd
        rawContent := List.intercalate [' '] paras
        fullText := List.intercalate ['\n'] paras
        paragraphs := paras
        category := category }

/-- `_parse_news_story` on raw bytes: `ET.fromstring` either fails with a
`ParseError` — which the function catches itself, printing a message and
returning `None` — or yields a `Root`. -/
def parseNewsStory (doc : Except ParseErr Root) (filename : List Char) :
    Option Parsed :=
  match doc with
  | .error _ => none
  | .ok root => parseNewsStoryRoot root filename

/-! ### `_is_metadata_content` -/

/-- `^news$` (IGNORECASE). -/
def reMetaNews : RE := .seq (reLitCI sNews) .eol
/-- `^All stories continued on` (IGNORECASE). -/
def reMetaContinuedOn : RE := reLitCI sAllStoriesContinuedOn
/-- `^•L-R:` (IGNORECASE). -/
def reMetaLR : RE := reLitCI sBulletLR
/-- `^\s*$` (IGNORECASE). -/
def reMetaBlank : RE := .seq wsStar .eol
/-- `^MONDAY,.*\d{4}$` (IGNORECASE). -/
def reMetaMonday : RE :=
  reSeqs [reLitCI sMondayComma, .star clsDot, clsDigit, clsDigit, clsDigit,
    clsDigit, .eol]
/-- `^\d{1,2}$` (IGNORECASE). -/
def reMetaPageNumber : RE := reSeqs [clsDigit, reOpt clsDigit, .eol]
/-- `^Photo:` (IGNORECASE). -/
def reMetaPhoto : RE := reLitCI sPhotoColon
/-- `^Continued from` (IGNORECASE). -/
def reMetaContinuedFrom : RE := reLitCI sContinuedFrom

def metadataPatterns : List RE :=
  [reMetaNews, reMetaContinuedOn, reMetaLR, reMetaBlank, reMetaMonday,
    reMetaPageNumber, reMetaPhoto, reMetaContinuedFrom]

def isMetadataContent (text : List Char) : Bool :=
  let t := pyStrip text
  if t.length < 3 then true
  else metadataPatterns.any fun r => reTest r t

/-! ### `_looks_like_author_line` and `_determine_story_type` -/

/-- `^[A-Z][a-z]+(?:\s+[A-Z][a-z]+)*,\s+[A-Z][a-z]+`. -/
def reAuthorLine1 : RE := reSeqs [reNameSeq, reLit sComma, wsPlus, reName]
/-- `^By\s+[A-Z][a-z]+`. -/
def reAuthorLine2 : RE := reSeqs [reLit sBy, wsPlus, reName]

def looksLikeAuthorLine (text : List Char) : Bool :=
  let t := pyStrip text
  reTest reAuthorLine1 t || reTest reAuthorLine2 t

def avgFontSize (elems : List ContentElement) : ℚ :=
  (elems.map (·.fontSize)).sum / (elems.length : ℚ)

def determineStoryType (story : Parsed) : List Char :=
  if story.contentElements.isEmpty then sUnknown
  else
    let avg := avgFontSize story.contentElements
    let hasBold := story.contentElements.any (·.isBold)
    let textLength := story.rawContent.length
    let paragraphCount := story.paragraphs.length
    if 15 ≤ avg ∧ hasBold ∧ textLength < 100 ∧ paragraphCount ≤ 1 then
      sHeadline
    else if avg < 15 ∧ 50 < textLength ∧ 1 < paragraphCount then
      sBodyContent
    else if looksLikeAuthorLine story.rawContent then sBodyContent
    else sUnknown

/-! ### `_extract_author_from_body` -/

/-- `[A-Z][a-z]+(?:\s+[A-Z][a-z]+)*(?:\s+and\s+[A-Z][a-z]+(?:\s+[A-Z][a-z]+)*)*`. -/
def reAndChain : RE :=
  .seq reNameSeq (.star (reSeqs [wsPlus, reLit sAnd, wsPlus, reNameSeq]))

/-- `[A-Z][a-z]+-[A-Z][a-z]+`. -/
def reHyphName : RE := reSeqs [reName, reLit sHyphen, reName]
/-- `[A-Z][a-z]+-[A-Z][a-z]+(?:\s+[A-Z][a-z]+)*`. -/
def reHyphUnit : RE := .seq reHyphName (.star (.seq wsPlus reName))
/-- The hyphenated-name author chain of pattern 3. -/
def reHyphChain : RE :=
  .seq reHyphUnit (.star (reSeqs [wsPlus, reLit sAnd, wsPlus, reHyphUnit]))

/-- The five author patterns of `_extract_author_from_body`, in order, each
as (pre, group-1 expression, rest). -/
def authorPatterns : List (RE × RE × RE) :=
  [ (.eps, reAndChain, reSeqs [reLit sComma, wsPlus, reName]),
    (.eps, reAndChain, .seq wsStar .eol),
    (.eps, reHyphChain, .eps),
    (.seq (reLit sBy) wsPlus, reNameSeq, .eps),
    (.eps, reAndChain, reSeqs [wsStar, reLit sComma, wsStar, rePlus clsLetter]) ]

/-- `.*$` can consume all of `t` (no newline except possibly one final). -/
def dollarReachable (t : List Char) : Bool :=
  !t.contains '\n' ||
    (!t.dropLast.contains '\n' && t.getLast? == some '\n')

/-- `re.sub(r',.*$', '', s)`: drop the leftmost comma from which `.*$`
reaches the end of the string (keeping a final newline, which `$` matches
before). -/
def subCommaRest : List Char → List Char
  | [] => []
  | c :: rest =>
    if c == ',' && dollarReachable rest then
      if rest.contains '\n' then ['\n'] else []
    else c :: subCommaRest rest

/-- Try the author patterns in order, returning the first `group(1)`. -/
def authorGroup1 (s : List Char) : Option (List Char) :=
  authorPatterns.findSome? fun pxr => reGroupAfter pxr.1 pxr.2.1 pxr.2.2 s

def extractAuthorFromBody (body : Parsed) : List Char :=
  match body.paragraphs with
  | [] => []
  | p0 :: _ =>
    let firstParagraph := pyStrip p0
    match authorGroup1 firstParagraph with
    | some g => subCommaRest (pyStrip g)
    | none =>
      if firstParagraph.length < 60 && reTest reAndChain firstParagraph then
        pyStrip firstParagraph
      else []

/-! ### `_remove_exact_author_from_paragraph` -/

/-- `[A-Z][a-z]+` under `re.IGNORECASE`: since `[A-Z]` and `[a-z]` both
match any letter there, the class collapses to two or more letters. -/
def ciNameCI : RE := .seq clsLetter (rePlus clsLetter)
/-- `[A-Z][a-z]+(?:\s+[A-Z][a-z]+)*` under IGNORECASE. -/
def ciNameSeq : RE := .seq ciNameCI (.star (.seq wsPlus ciNameCI))

/-- The four removal patterns, in order, for an escaped author literal. -/
def removalPatterns (author : List Char) : List RE :=
  [ reSeqs [reLitCI author, reLit sComma, wsPlus, rePlus clsLetter, wsStar],
    reSeqs [reLitCI author, wsPlus, reLitCI sAnd, wsPlus, ciNameSeq,
      reLit sComma, wsPlus, rePlus clsLetter, wsStar],
    .seq (reLitCI author) wsStar,
    reSeqs [reLitCI author, wsPlus, reLitCI sAnd, wsPlus, ciNameSeq, wsStar] ]

/-- `for pattern in removal_patterns: … break on first change`. -/
def removalLoop (cleaned : List Char) : List RE → List Char
  | [] => cleaned
  | r :: rs =>
    let newCleaned := pyStrip (reSubAnchored r cleaned)
    if newCleaned ≠ cleaned then newCleaned else removalLoop cleaned rs

/-- The function words of the aggressive fallback, in source order ("In"
appears twice, as in the source). -/
def functionWords : List (List Char) :=
  ["The".toList, "A".toList, "An".toList, "In".toList, "On".toList,
   "At".toList, "For".toList, "With".toList, "By".toList, "After".toList,
   "Before".toList, "During".toList, "Since".toList, "Until".toList,
   "About".toList, "Over".toList, "Under".toList, "Through".toList,
   "Against".toList, "Between".toList, "Among".toList, "Around".toList,
   "Inside".toList, "Outside".toList, "Upon".toList, "Within".toList,
   "Without".toList, "From".toList, "To".toList, "Of".toList,
   "Into".toList, "Onto".toList, "Across".toList, "Down".toList,
   "Up".toList, "Off".toList, "Out".toList, "In".toList]

/-- `\b(The|A|…|In)\b` under IGNORECASE; the leading `\b` is enforced by
the position scan, the trailing one by `nwb`. -/
def reFunctionWord : RE :=
  .seq ((functionWords.map reLitCI).foldr .alt (.cls fun _ => false)) .nwb

def removeExactAuthorFromParagraph (paragraph author : List Char) :
    List Char :=
  if author.isEmpty then paragraph
  else
    let cleaned := removalLoop paragraph (removalPatterns author)
    if cleaned == paragraph then
      match reSearchPosB reFunctionWord paragraph with
      | some i => pyStrip (paragraph.drop i)
      | none => cleaned
    else cleaned

/-! ### `_is_author_paragraph` -/

def isAuthorParagraph (paragraphText author : List Char) : Bool :=
  if author.isEmpty then false
  else
    let t := pyStrip paragraphText
    reTest (reLitCI author) t ||
      reTest (reSeqs [reLitCI sBy, wsPlus, reLitCI author]) t ||
      reTest (reSeqs [reLitCI author, reLit sComma, wsPlus, rePlus clsLetter]) t

/-! ### `_clean_content_text` -/

def cleanContentText (body : Parsed) : List Char :=
  match body.paragraphs with
  | [] => []
  | p0 :: restParas =>
    let firstPara := pyStrip p0
    let extractedAuthor := extractAuthorFromBody body
    if extractedAuthor.isEmpty then
      List.intercalate ['\n']
        ((p0 :: restParas).filterMap fun p =>
          let q := pyStrip p
          if q.isEmpty then none else some q)
    else
      let cleanedFirst := removeExactAuthorFromParagraph firstPara extractedAuthor
      let firstPart :=
        if !cleanedFirst.isEmpty && 10 < (pyStrip cleanedFirst).length then
          [pyStrip cleanedFirst]
        else []
      let rest := restParas.filterMap fun p =>
        let q := pyStrip p
        if q.isEmpty then none else some q
      List.intercalate ['\n'] (firstPart ++ rest)

/-! ### `_wrap_text_with_formatting` and `_generate_rich_content_html` -/

def strongOpen : List Char := "<strong>".toList
def strongClose : List Char := "</strong>".toList
def emOpen : List Char := "<em>".toList
def emClose : List Char := "</em>".toList
def h3Open : List Char := "<h3>".toList
def h3Close : List Char := "</h3>".toList
def h4Open : List Char := "<h4>".toList
def h4Close : List Char := "</h4>".toList
def pOpen : List Char := "<p>".toList
def pClose : List Char := "</p>".toList

/-- Steps 1 and 2: bold, then italic. -/
def boldItalicWrap (text : List Char) (e : ContentElement) : List Char :=
  let t1 := if e.isBold then strongOpen ++ text ++ strongClose else text
  if e.isItalic then emOpen ++ t1 ++ emClose else t1

/-- Step 3: the heading branches, in source order — the `<h4>` test runs
first, the `<h3>` test only in its `elif`. -/
def wrapTextWithFormatting (text : List Char) (e : ContentElement) :
    List Char :=
  let htmlText := boldItalicWrap text e
  if 16 ≤ e.fontSize ∧ e.isBold = false then h4Open ++ htmlText ++ h4Close
  else if 20 ≤ e.fontSize then h3Open ++ htmlText ++ h3Close
  else htmlText

/-- `_group_elements_by_paragraph`. -/
def groupElementsByParagraph (elems : List ContentElement) :
    List (List ContentElement) :=
  let (paras, cur, _) :=
    elems.foldl
      (fun (st : List (List ContentElement) × List ContentElement × Option Nat)
          e =>
        let (paras, cur, curIdx) := st
        let pIdx := e.paragraphRangeIndex
        match curIdx with
        | some i =>
          if pIdx ≠ i then
            ((if cur.isEmpty then paras else paras ++ [cur]), [e], some pIdx)
          else (paras, cur ++ [e], some pIdx)
        | none => (paras, cur ++ [e], some pIdx))
      ([], [], none)
  if cur.isEmpty then paras else paras ++ [cur]

def generateRichContentHtml (body : Parsed) : List Char :=
  if body.contentElements.isEmpty then []
  else
    let extractedAuthor := extractAuthorFromBody body
    let paraGroups := groupElementsByParagraph body.contentElements
    let htmlParagraphs := paraGroups.filterMap fun paraElems =>
      let pieces := paraElems.filterMap fun e =>
        let t := pyStrip e.text
        if t.isEmpty then none else some (t, wrapTextWithFormatting t e)
      let paragraphText := List.intercalate [' '] (pieces.map (·.1))
      let paragraphHtml := (pieces.map (·.2)).flatten
      if !extractedAuthor.isEmpty &&
          isAuthorParagraph paragraphText extractedAuthor then none
      else if (pyStrip paragraphHtml).isEmpty then none
      else some (pOpen ++ paragraphHtml ++ pClose)
    List.intercalate ['\n'] htmlParagraphs

/-! ### `_calculate_content_similarity` -/

def stopWords : List (List Char) :=
  ["this".toList, "that".toList, "with".toList, "from".toList,
   "they".toList, "were".toList, "been".toList, "have".toList,
   "will".toList, "would".toList, "could".toList, "should".toList,
   "said".toList, "says".toList, "also".toList, "more".toList,
   "most".toList, "much".toList, "many".toList, "some".toList,
   "very".toList, "when".toList, "where".toList, "what".toList,
   "which".toList, "while".toList, "after".toList, "before".toList,
   "during".toList, "since".toList, "until".toList, "about".toList,
   "above".toList, "below".toList, "between".toList, "through".toList,
   "against".toList]

/-- `\b[a-z]{4,}\b` (trailing `\b` as `nwb`, leading one in the scan). -/
def reLowerWord : RE :=
  reSeqs [clsLower, clsLower, clsLower, rePlus clsLower, .nwb]

/-- `\b[A-Z][a-z]+(?:\s+[A-Z][a-z]+)*\b`. -/
def reEntity : RE := .seq reNameSeq .nwb

/-- `set(re.findall(r'\b[a-z]{4,}\b', s.lower())) - stop_words` (a set is
modelled as its deduplicated member list). -/
def lowerWordSet (s : List Char) : List (List Char) :=
  ((reFindallB reLowerWord (lowerL s)).dedup).filter fun w =>
    !stopWords.contains w

/-- `set(re.findall(r'\b[A-Z][a-z]+(?:\s+[A-Z][a-z]+)*\b', s))`. -/
def entitySet (s : List Char) : List (List Char) :=
  (reFindallB reEntity s).dedup

def importantKeywords : List (List Char) :=
  ["president".toList, "minister".toList, "governor".toList,
   "senator".toList, "chairman".toList, "commission".toList,
   "committee".toList, "party".toList, "government".toList,
   "assembly".toList, "court".toList, "justice".toList,
   "university".toList, "union".toList, "movement".toList,
   "congress".toList, "forum".toList]

/-- The word-overlap component of the similarity score (5 × shared-word
ratio, contributed only when the headline has words at all). -/
def wordOverlapScore (headline content : List Char) : ℚ :=
  let headlineWords := lowerWordSet headline
  let contentWords := lowerWordSet (content.take 300)
  let common := headlineWords.filter fun w => contentWords.contains w
  if 0 < headlineWords.length then
    (common.length : ℚ) / (headlineWords.length : ℚ) * 5
  else 0

/-- The capitalized-entity component: 2 per shared entity between the
headline and the first 400 characters of the content. -/
def entityScore (headline content : List Char) : ℚ :=
  let he := entitySet headline
  let ce := entitySet (content.take 400)
  ((he.filter fun e => ce.contains e).length : ℚ) * 2

/-- +1 per important keyword contained (as a substring) in both texts. -/
def keywordScore (headline content : List Char) : ℚ :=
  ((importantKeywords.filter fun k =>
    containsSub (lowerL headline) k && containsSub (lowerL content) k).length : ℚ)

def calculateContentSimilarity (headline content : List Char) : ℚ :=
  wordOverlapScore headline content + entityScore headline content +
    keywordScore headline content

/-! ### `_calculate_id_distance` -/

def digitsToNat (l : List Char) : Nat :=
  l.foldl (fun a c => a * 10 + (c.toNat - 48)) 0

/-- Value of the first maximal digit run (`re.search(r'(\d+)', s)`). -/
def firstNumber : List Char → Option Nat
  | [] => none
  | c :: rest =>
    if c.isDigit then some (digitsToNat ((c :: rest).takeWhile Char.isDigit))
    else firstNumber rest

/-- `none` models `float('inf')` (an id without digits). -/
def calculateIdDistance (id1 id2 : List Char) : Option Nat :=
  match firstNumber id1, firstNumber id2 with
  | some v1, some v2 => some ((v1 : ℤ) - (v2 : ℤ)).natAbs
  | _, _ => none

/-! ### `_extract_headline_from_content` -/

def sEllipsis : List Char := "...".toList

def extractHeadlineFromContent (body : Parsed) : List Char :=
  match body.contentElements.find? fun e =>
      e.isBold && 10 < e.fontSize && e.text.length < 100 with
  | some e => e.text
  | none =>
    match body.paragraphs with
    | [] => []
    | p0 :: _ =>
      let firstSentence := p0.takeWhile fun c => !(c == '.')
      if 100 < firstSentence.length then firstSentence.take 100 ++ sEllipsis
      else firstSentence

/-! ### `_find_matching_headline`

Python sorts the candidate list by score, descending and stable, and takes
its head; that head is the earliest candidate attaining the maximal score,
which is what `pickFirstMax` computes.  Score arithmetic is over `ℚ`
(`0.7`/`0.3` as `7/10`/`3/10`), standing in for Python floats. -/

def pickFirstMax (l : List (Parsed × ℚ)) : Option (Parsed × ℚ) :=
  l.foldl
    (fun best x =>
      match best with
      | none => some x
      | some b => if b.2 < x.2 then some x else some b)
    none

/-- `id_score = max(0, 10 - (id_distance / 10))`; an infinite distance
(no digits in an id) yields `max(0, -inf) = 0`. -/
def idScoreOf (body h : Parsed) : ℚ :=
  match calculateIdDistance body.storyId h.storyId with
  | some d => max 0 (10 - (d : ℚ) / 10)
  | none => 0

/-- `combined_score = content_score * 0.7 + id_score * 0.3`. -/
def combinedScore (body h : Parsed) : ℚ :=
  calculateContentSimilarity (lowerL h.rawContent) (lowerL body.rawContent)
      * (7 / 10) +
    idScoreOf body h * (3 / 10)

/-- Strategy 3's loop: fold over all headlines, skipping used ids, keeping
the current best match and score; a later headline replaces the current
best only when its combined score is strictly greater
(`if combined_score > best_score`). -/
def strategy3Step (body : Parsed) (used : List (List Char))
    (st : Option Parsed × ℚ) (h : Parsed) : Option Parsed × ℚ :=
  if used.contains h.storyId then st
  else if st.2 < combinedScore body h then (some h, combinedScore body h)
  else st

def strategy3Fold (body : Parsed) (headlines : List Parsed)
    (used : List (List Char)) : Option Parsed × ℚ :=
  headlines.foldl (strategy3Step body used) (none, -1)

/-- Strategy 1's candidate list: each unused headline with a positive
content-similarity score against the body. -/
def contentMatchesOf (body : Parsed) (headlines : List Parsed)
    (used : List (List Char)) : List (Parsed × ℚ) :=
  headlines.filterMap fun h =>
    if used.contains h.storyId then none
    else
      if 0 < calculateContentSimilarity (lowerL h.rawContent)
          (lowerL body.rawContent) then
        some (h, calculateContentSimilarity (lowerL h.rawContent)
          (lowerL body.rawContent))
      else none

/-- Strategy 1: take the top-scored candidate if its score is ≥ 2. -/
def strategy1Result (body : Parsed) (headlines : List Parsed)
    (used : List (List Char)) : Option Parsed :=
  match pickFirstMax (contentMatchesOf body headlines used) with
  | some hs => if 2 ≤ hs.2 then some hs.1 else none
  | none => none

def findMatchingHeadline (body : Parsed) (headlines : List Parsed)
    (used : List (List Char)) : Option Parsed :=
  match strategy1Result body headlines used with
  | some h => some h
  | none =>
    -- Strategy 2 builds an id-proximity ranking the source never reads;
    -- it has no observable effect and is omitted.  Strategy 3:
    match (strategy3Fold body headlines used).1 with
    | some h =>
      if 1 ≤ (strategy3Fold body headlines used).2 then some h else none
    | none => none

/-! ### Article records and `_match_headlines_with_content`

A Python dict key that only some code path writes becomes an `Option`
field (`none` = key absent): standalone-headline records carry no
`content_html`, no `content_formatted`, and their metadata has no
`formatting_preserved` and no `html_paragraph_count`. -/

def sNewsArticle : List Char := "news_article".toList
def sStandaloneHeadline : List Char := "standalone_headline".toList

structure Article where
  storyId : List Char
  headlineStoryId : List Char
  filename : List Char
  headlineFilename : List Char
  articleType : List Char
  headline : List Char
  author : List Char
  category : List Char
  content : List Char
  contentHtml : Option (List Char)
  contentFormatted : Option Bool
  fullText : List Char
  paragraphs : List (List Char)
  mBodyElements : Nat
  mHeadlineElements : Nat
  mHasMatchingHeadline : Bool
  mFormattingPreserved : Option Bool
  mHtmlParagraphCount : Option Nat
deriving DecidableEq

/-- `len(re.findall(r'<p>', s))`: non-overlapping occurrences of the
three-character pattern. -/
def countPTags : List Char → Nat
  | '<' :: 'p' :: '>' :: rest => countPTags rest + 1
  | _ :: rest => countPTags rest
  | [] => 0

/-- The news-article record built for one body story. -/
def buildNewsArticle (bodyStory : Parsed) (matching : Option Parsed) :
    Article :=
  let author := extractAuthorFromBody bodyStory
  let contentPlain := cleanContentText bodyStory
  let contentHtml := generateRichContentHtml bodyStory
  let headlineText :=
    match matching with
    | some mh => mh.rawContent
    | none => extractHeadlineFromContent bodyStory
  { storyId := bodyStory.storyId
    headlineStoryId := match matching with | some mh => mh.storyId | none => []
    filename := bodyStory.filename
    headlineFilename := match matching with | some mh => mh.filename | none => []
    articleType := sNewsArticle
    headline := headlineText
    author := author
    category := bodyStory.category
    content := contentPlain
    contentHtml := some contentHtml
    contentFormatted := some true
    fullText := bodyStory.fullText
    paragraphs := bodyStory.paragraphs
    mBodyElements := bodyStory.contentElements.length
    mHeadlineElements :=
      match matching with
      | some mh => mh.contentElements.length
      | none => 0
    mHasMatchingHeadline := matching.isSome
    mFormattingPreserved := some (!contentHtml.isEmpty)
    mHtmlParagraphCount :=
      some (if contentHtml.isEmpty then 0 else countPTags contentHtml) }

/-- The standalone record built for a never-used headline story. -/
def buildStandaloneArticle (h : Parsed) : Article :=
  { storyId := h.storyId
    headlineStoryId := h.storyId
    filename := h.filename
    headlineFilename := h.filename
    articleType := sStandaloneHeadline
    headline := h.rawContent
    author := []
    category := h.category
    content := []
    contentHtml := none
    contentFormatted := none
    fullText := h.rawContent
    paragraphs := [h.rawContent]
    mBodyElements := 0
    mHeadlineElements := h.contentElements.length
    mHasMatchingHeadline := true
    mFormattingPreserved := none
    mHtmlParagraphCount := none }

/-- One story of the partition loop: metadata stories are dropped,
`unknown` stories join neither pool. -/
def partitionStep (st : List Parsed × List Parsed) (story : Parsed) :
    List Parsed × List Parsed :=
  if isMetadataContent story.rawContent then st
  else if determineStoryType story == sHeadline then (st.1 ++ [story], st.2)
  else if determineStoryType story == sBodyContent then
    (st.1, st.2 ++ [story])
  else st

/-- The headline/body partition. -/
def partitionPools (allStories : List Parsed) : List Parsed × List Parsed :=
  allStories.foldl partitionStep ([], [])

/-- One body story of the greedy matching loop: build its article and mark
a matched headline's id as used. -/
def bodyStep (headlines : List Parsed)
    (st : List Article × List (List Char)) (bodyStory : Parsed) :
    List Article × List (List Char) :=
  let (arts, used) := st
  let matching := findMatchingHeadline bodyStory headlines used
  let used2 :=
    match matching with
    | some mh => used ++ [mh.storyId]
    | none => used
  (arts ++ [buildNewsArticle bodyStory matching], used2)

/-- The greedy body-story loop: accumulates articles and the used-headline
id set. -/
def matchBodyLoop (headlines : List Parsed) (bodyStories : List Parsed) :
    List Article × List (List Char) :=
  bodyStories.foldl (bodyStep headlines) ([], [])

def matchHeadlinesWithContent (allStories : List Parsed) : List Article :=
  let pools := partitionPools allStories
  let headlines := pools.1
  let (matchedArticles, usedHeadlines) := matchBodyLoop headlines pools.2
  let standalone := headlines.filterMap fun h =>
    if usedHeadlines.contains h.storyId then none
    else some (buildStandaloneArticle h)
  matchedArticles ++ standalone

/-! ### `extract_news_articles` -/

/-- First pass: all marker records (position, story id, marker text), in
file order.  A file whose bytes fail to parse is skipped by the
`except` clause but still advances the position counter. -/
def scanMarkers (docs : List (List Char × Except ParseErr Root)) :
    List (Nat × List Char × List Char) :=
  docs.enum.filterMap fun p =>
    match p.2.2 with
    | .error _ => none
    | .ok root =>
      if isCategoryMarker root then
        let part := extractCategoryFromStory root
        if part.isEmpty then none else some (p.1, root.storySelf, part)
      else none

/-- One marker record of the prefix-collection loop: a record whose
position is the expected next index is accepted; the first gap stops the
collection (the source's `break`). -/
def markerStep (st : List (Nat × List Char × List Char) × Nat × Bool)
    (m : Nat × List Char × List Char) :
    List (Nat × List Char × List Char) × Nat × Bool :=
  let (acc, expected, stopped) := st
  if stopped then st
  else if m.1 == expected then (acc ++ [m], expected + 1, false)
  else (acc, expected, true)

/-- The first consecutive run of markers starting at position 0 (the loop
breaks at the first gap). -/
def acceptedMarkers (markers : List (Nat × List Char × List Char)) :
    List (Nat × List Char × List Char) :=
  (markers.foldl markerStep ([], 0, false)).1

def detectedCategory (docs : List (List Char × Except ParseErr Root)) :
    List Char :=
  ((acceptedMarkers (scanMarkers docs)).map fun m => m.2.2).flatten

def markerStoryIds (docs : List (List Char × Except ParseErr Root)) :
    List (List Char) :=
  (acceptedMarkers (scanMarkers docs)).map fun m => m.2.1

/-- Second pass: parse every story, keep those with non-empty raw content
that are not accepted markers, and inherit the detected category when the
story has none of its own. -/
def allStoriesOf (docs : List (List Char × Except ParseErr Root)) :
    List Parsed :=
  let cat := detectedCategory docs
  let mids := markerStoryIds docs
  docs.filterMap fun p =>
    match parseNewsStory p.2 p.1 with
    | none => none
    | some ad =>
      if ad.rawContent.isEmpty then none
      else if mids.contains ad.storyId then none
      else if !cat.isEmpty && ad.category.isEmpty then
        some { ad with category := cat }
      else some ad

def extractNewsArticles (docs : List (List Char × Except ParseErr Root)) :
    List Article :=
  matchHeadlinesWithContent (allStoriesOf docs)

/-! ### Concrete fixtures -/

/-- A content element with the given text, point size, boldness and
paragraph index (italic off, styles empty). -/
def ceFix (t : List Char) (fs : ℚ) (bold : Bool) (idx : Nat) :
    ContentElement :=
  { text := t
    fontSize := fs
    fontStyle := if bold then sBold else sRegular
    isBold := bold
    isItalic := false
    appliedStyle := []
    paragraphStyle := []
    paragraphRangeIndex := idx }

/-- A one-element, one-paragraph parsed story. -/
def oneParaStory (sid t : List Char) (fs : ℚ) (bold : Bool) : Parsed :=
  { storyId := sid
    filename := []
    contentElements := [ceFix t fs bold 1]
    rawContent := t
    fullText := t
    paragraphs := [t]
    category := [] }

def sCityCouncil : List Char := "City Council Approves Budget".toList
def sJohnDoeLagos : List Char := "John Doe, Lagos".toList
def sCouncilVoted : List Char :=
  "The council voted 7-2 to approve the budget for Lagos today".toList

/-- A headline story: bold, 18 pt, short, one paragraph. -/
def hStory : Parsed := oneParaStory ("u10".toList) sCityCouncil 18 true

/-- A body story: 12 pt, two paragraphs, author line first. -/
def bStory : Parsed :=
  { storyId := "u20".toList
    filename := "f2".toList
    contentElements :=
      [ceFix sJohnDoeLagos 12 true 1, ceFix sCouncilVoted 12 false 2]
    rawContent := sJohnDoeLagos ++ ' ' :: sCouncilVoted
    fullText := sJohnDoeLagos ++ '\n' :: sCouncilVoted
    paragraphs := [sJohnDoeLagos, sCouncilVoted]
    category := [] }

def sX : List Char := "x".toList

/-- The size-20, non-bold element of the C1 counterexample. -/
def c1elem : ContentElement := ceFix sX 20 false 1

def c2author : List Char := "John".toList
def c2para : List Char := "John John went home".toList
def c2paraB : List Char := "John, Lagos The measure failed".toList
/-- A body story from which the author "John" is extracted. -/
def c2body : Parsed :=
  { storyId := []
    filename := []
    contentElements := []
    rawContent := []
    fullText := []
    paragraphs := [c2paraB]
    category := [] }

def c3headline : List Char := "President Buhari Visits Lagos".toList
def c3body : List Char :=
  "President Buhari Visits Lagos announced the policy".toList

def sTuesdayLine : List Char := "TUESDAY, JUNE 3 2024".toList
def sMondayLine : List Char := "MONDAY, JUNE 3 2024".toList
/-- A non-MONDAY dateline story that is bold, 15 pt, one paragraph. -/
def tuesdayStory : Parsed := oneParaStory ("u5".toList) sTuesdayLine 15 true
def mondayStory : Parsed := oneParaStory ("u6".toList) sMondayLine 15 true

/-- A structurally minimal marker story document. -/
def markerRoot (t sid : List Char) : Root :=
  { storySelf := sid
    paraRanges :=
      [{ appliedParagraphStyle := []
         charRanges :=
           [{ pointSize := some 12
              fontStyle := none
              appliedCharacterStyle := []
              children := [.content (some t)] }] }] }

/-- The two-paragraph body story as a raw document. -/
def bodyRootFix : Root :=
  { storySelf := "u20".toList
    paraRanges :=
      [{ appliedParagraphStyle := []
         charRanges :=
           [{ pointSize := some 12
              fontStyle := some sBold
              appliedCharacterStyle := []
              children := [.content (some sJohnDoeLagos), .br] }] },
       { appliedParagraphStyle := []
         charRanges :=
           [{ pointSize := some 12
              fontStyle := some sRegular
              appliedCharacterStyle := []
              children := [.content (some sCouncilVoted)] }] }]  }

def s247 : List Char := "247".toList
def sBusiness : List Char := "Business".toList
def sCapital : List Char := "capital".toList
def sMarket : List Char := "market".toList

/-- Marker "247" at position 0, marker "Business" at position 1. -/
def docs247 : List (List Char × Except ParseErr Root) :=
  [("m1".toList, .ok (markerRoot s247 ("u1".toList))),
   ("m2".toList, .ok (markerRoot sBusiness ("u2".toList)))]

/-- Markers "capital", "market" at positions 0, 1 (both contain letters). -/
def docsCapitalMarket : List (List Char × Except ParseErr Root) :=
  [("m1".toList, .ok (markerRoot sCapital ("u1".toList))),
   ("m2".toList, .ok (markerRoot sMarket ("u2".toList)))]

/-- Marker at position 0, non-marker at 1, marker at 2 (a gap). -/
def docsGap : List (List Char × Except ParseErr Root) :=
  [("m1".toList, .ok (markerRoot sCapital ("u1".toList))),
   ("f2".toList, .ok bodyRootFix),
   ("m2".toList, .ok (markerRoot sMarket ("u3".toList)))]

/-- A well-formed story document with no extractable text runs. -/
def emptyRoot : Root := { storySelf := "u9".toList, paraRanges := [] }

/-- A bold 15-pt single-paragraph story whose raw content has length n. -/
def classStory (n : Nat) : Parsed :=
  oneParaStory [] (List.replicate n 'x') 15 true

/-- Tiny fixtures for the combined-scoring stage: no shared content, ids at
numeric distance 1. -/
def tinyBody : Parsed := oneParaStory ("u1".toList) ("zz".toList) 12 false
def tinyHead : Parsed := oneParaStory ("u2".toList) ("qq".toList) 18 true

/-! ## Theorems -/

set_option maxRecDepth 1000000

/-- C1 — counterexample: the element with font size 20 that is not bold
satisfies the claim's trigger (font size ≥ 20) but is wrapped in
`<h4>…</h4>`, not `<h3>…</h3>`: the source tests the `<h4>` branch first,
so the `h3` rule does not take precedence. -/
theorem C1_counterexample :
    (20 : ℚ) ≤ c1elem.fontSize ∧
      wrapTextWithFormatting sX c1elem = h4Open ++ sX ++ h4Close ∧
      ¬ wrapTextWithFormatting sX c1elem = h3Open ++ sX ++ h3Close := by
  refine ⟨by decide, by decide, by decide⟩

/-- C1 — amended: after bold/italic wrapping, the result is wrapped in
`<h4>…</h4>` whenever the font size is ≥ 16 and the element is not bold
(including sizes ≥ 20, because the `h4` branch is tested first), it is
wrapped in `<h3>…</h3>` only when the font size is ≥ 20 and the element is
bold, and otherwise no heading tag is added. -/
theorem C1_amended_heading_rule (t : List Char) (e : ContentElement) :
    (16 ≤ e.fontSize → e.isBold = false →
      wrapTextWithFormatting t e = h4Open ++ boldItalicWrap t e ++ h4Close) ∧
    (20 ≤ e.fontSize → e.isBold = true →
      wrapTextWithFormatting t e = h3Open ++ boldItalicWrap t e ++ h3Close) ∧
    (e.fontSize < 16 → e.isBold = false →
      wrapTextWithFormatting t e = boldItalicWrap t e) ∧
    (e.fontSize < 20 → e.isBold = true →
      wrapTextWithFormatting t e = boldItalicWrap t e) := by
  unfold wrapTextWithFormatting
  refine ⟨fun h1 h2 => ?_, fun h1 h2 => ?_, fun h1 h2 => ?_, fun h1 h2 => ?_⟩
  · rw [if_pos ⟨h1, h2⟩]
  · rw [if_neg (by simp [h2]), if_pos (by linarith)]
  · rw [if_neg (by rintro ⟨h, -⟩; linarith), if_neg (by linarith)]
  · rw [if_neg (by simp [h2]), if_neg (by linarith)]

/-- C1 — witness for the amended rule at the concrete size-20 non-bold
element. -/
theorem C1_amended_witness :
    wrapTextWithFormatting sX c1elem =
      h4Open ++ boldItalicWrap sX c1elem ++ h4Close :=
  (C1_amended_heading_rule sX c1elem).1 (by decide) (by decide)

/-- C7 — counterexample: malformed bytes and a well-formed document with
no extractable text runs produce the *same* absent result: the source
catches the markup `ParseError` inside `_parse_news_story` itself and
returns `None`, so failure and absence are not distinguishable. -/
theorem C7_counterexample :
    parseNewsStory (Except.error ParseErr.malformed) [] =
      parseNewsStory (Except.ok emptyRoot) [] ∧
      parseNewsStory (Except.error ParseErr.malformed) [] = none := by
  refine ⟨by decide, by decide⟩

/-- C7 — amended: the Story Parser never propagates a parse failure —
malformed markup yields the absent result — and on well-formed input the
result is absent exactly when the document yields no content elements. -/
theorem C7_amended_absence :
    (∀ (e : ParseErr) (fn : List Char),
      parseNewsStory (Except.error e) fn = none) ∧
    (∀ (root : Root) (fn : List Char),
      (parseNewsStoryRoot root fn = none ↔ (parseFold root).1 = [])) := by
  constructor
  · intro e fn; rfl
  · intro root fn
    unfold parseNewsStoryRoot
    rcases hpf : parseFold root with ⟨cd, paras, k⟩
    by_cases hcd : cd = []
    · subst hcd; simp
    · simp [hcd, List.isEmpty_iff]

/-- C8: a story with average font size exactly 15, at least one bold
element, raw-content length 99 and exactly one paragraph is classified as
headline; with raw-content length 100 it is not (the headline branch fails
and the remaining branches yield body_content or unknown). -/
theorem C8_classifier_boundary (a b : Parsed)
    (ha0 : a.contentElements.isEmpty = false)
    (ha1 : avgFontSize a.contentElements = 15)
    (ha2 : a.contentElements.any (fun e => e.isBold) = true)
    (ha3 : a.rawContent.length = 99)
    (ha4 : a.paragraphs.length = 1)
    (hb0 : b.contentElements.isEmpty = false)
    (hb1 : avgFontSize b.contentElements = 15)
    (hb2 : b.contentElements.any (fun e => e.isBold) = true)
    (hb3 : b.rawContent.length = 100)
    (hb4 : b.paragraphs.length = 1) :
    determineStoryType a = sHeadline ∧ determineStoryType b ≠ sHeadline := by
  constructor
  · unfold determineStoryType
    rw [ha0]
    simp only [Bool.false_eq_true, if_false]
    rw [if_pos]
    exact ⟨by rw [ha1], by rw [ha2], by omega, by omega⟩
  · unfold determineStoryType
    rw [hb0]
    simp only [Bool.false_eq_true, if_false]
    rw [if_neg (by rintro ⟨-, -, h, -⟩; omega),
      if_neg (by rintro ⟨h, -, -⟩; rw [hb1] at h; exact absurd h (by norm_num))]
    split
    · decide
    · decide

/-- Any story in either pool passed the metadata pre-filter. -/
theorem mem_partition_not_metadata :
    ∀ (stories : List Parsed) (acc : List Parsed × List Parsed) (s : Parsed),
      s ∈ (stories.foldl partitionStep acc).1 ++
          (stories.foldl partitionStep acc).2 →
      s ∈ acc.1 ++ acc.2 ∨ isMetadataContent s.rawContent = false := by
  intro stories
  induction stories with
  | nil => exact fun acc s h => Or.inl h
  | cons st rest ih =>
    intro acc s h
    simp only [List.foldl_cons] at h
    rcases ih _ s h with hmem | hok
    · unfold partitionStep at hmem
      by_cases hmeta : isMetadataContent st.rawContent
      · rw [if_pos hmeta] at hmem
        exact Or.inl hmem
      · rw [if_neg hmeta] at hmem
        simp only [Bool.not_eq_true] at hmeta
        split_ifs at hmem with h1 h2
        · simp only [List.mem_append, List.mem_singleton] at hmem ⊢
          rcases hmem with (h | h) | h
          · exact Or.inl (Or.inl h)
          · exact Or.inr (h ▸ hmeta)
          · exact Or.inl (Or.inr h)
        · simp only [List.mem_append, List.mem_singleton] at hmem ⊢
          rcases hmem with h | (h | h)
          · exact Or.inl (Or.inl h)
          · exact Or.inl (Or.inr h)
          · exact Or.inr (h ▸ hmeta)
        · exact Or.inl hmem
    · exact Or.inr hok

unseal Rat.add Rat.mul Rat.inv Rat.sub in
/-- C8 — witness at concrete one-element stories of raw length 99 and
100. -/
theorem C8_classifier_boundary_witness :
    determineStoryType (classStory 99) = sHeadline ∧
      determineStoryType (classStory 100) ≠ sHeadline :=
  C8_classifier_boundary (classStory 99) (classStory 100) (by decide)
    (by decide) (by decide) (by decide) (by decide) (by decide) (by decide)
    (by decide) (by decide) (by decide)

unseal Rat.add Rat.mul Rat.inv Rat.sub in
/-- C4 — counterexample: the story whose raw content is the dateline
"TUESDAY, JUNE 3 2024" (bold, 15 pt, one paragraph) is *not* discarded by
the pre-filter — the noise pattern is literally `^MONDAY,.*\d{4}$` — and
it enters the headline pool. -/
theorem C4_counterexample :
    isMetadataContent tuesdayStory.rawContent = false ∧
      partitionPools [tuesdayStory] = ([tuesdayStory], []) := by
  exact ⟨by decide, by decide⟩

/-- C4 — amended: only MONDAY datelines are discarded: every story whose
stripped raw content matches `^MONDAY,.*\d{4}$` (case-insensitively) is
discarded by the classifier pre-filter and enters neither the headline
pool nor the body pool. -/
theorem C4_amended_monday_discarded (stories : List Parsed) (s : Parsed)
    (h : reTest reMetaMonday (pyStrip s.rawContent) = true) :
    s ∉ (partitionPools stories).1 ∧ s ∉ (partitionPools stories).2 := by
  have hm : isMetadataContent s.rawContent = true := by
    simp only [isMetadataContent]
    split
    · rfl
    · exact List.any_eq_true.2 ⟨reMetaMonday, by simp [metadataPatterns], h⟩
  constructor
  · intro hmem
    rcases mem_partition_not_metadata stories ([], []) s
        (List.mem_append.2 (Or.inl hmem)) with hin | hok
    · simp at hin
    · rw [hm] at hok; simp at hok
  · intro hmem
    rcases mem_partition_not_metadata stories ([], []) s
        (List.mem_append.2 (Or.inr hmem)) with hin | hok
    · simp at hin
    · rw [hm] at hok; simp at hok

/-- C4 — witness: the MONDAY dateline story is kept out of both pools. -/
theorem C4_amended_witness :
    mondayStory ∉ (partitionPools [mondayStory]).1 ∧
      mondayStory ∉ (partitionPools [mondayStory]).2 :=
  C4_amended_monday_discarded [mondayStory] mondayStory (by decide)

/-- C5 — evaluation at the failing input: with marker stories "247" at
position 0 and "Business" at position 1, the marker scan records only
position 1 — `_is_valid_category` rejects "247" for containing no letter —
so the consecutive-from-0 prefix is empty and the category is "", not the
"247Business" promised by the claim and by the extractor's own docstring.
With letter-containing texts the concatenation rule does hold ("capital",
"market" → "capitalmarket"; a gap at position 1 keeps only position 0),
and no accepted marker's story id ever reaches the article list. -/
theorem C5_marker_evaluation :
    (scanMarkers docs247).map (fun m => m.1) = [1] ∧
      detectedCategory docs247 = [] ∧
      ¬ detectedCategory docs247 = s247 ++ sBusiness ∧
      detectedCategory docsCapitalMarket = sCapital ++ sMarket ∧
      detectedCategory docsGap = sCapital ∧
      ∀ docs, (allStoriesOf docs).all
        (fun st => !(markerStoryIds docs).contains st.storyId) = true := by
  refine ⟨by decide, by decide, by decide, by decide, by decide, ?_⟩
  intro docs
  rw [List.all_eq_true]
  intro st hst
  simp only [allStoriesOf, List.mem_filterMap] at hst
  obtain ⟨p, hp, hf⟩ := hst
  rcases hparse : parseNewsStory p.2 p.1 with _ | ad <;> rw [hparse] at hf
  · exact absurd hf (by simp)
  · dsimp only at hf
    split_ifs at hf with h1 h2 h3
    · obtain rfl := Option.some_injective _ hf
      simpa using h2
    · obtain rfl := Option.some_injective _ hf
      simpa using h2

/-- A string all of whose characters are non-uppercase has no entity-match
at its head. -/
theorem reSuffixes_entity_nil (c : Char) (rest : List Char)
    (hc : c.isUpper = false) : reSuffixes reEntity (c :: rest) = [] := by
  simp [reSuffixes, reMatch, reMatchA, reEntity, reNameSeq, reName,
    clsUpper, hc]

/-- The entity scan finds nothing in a string with no uppercase letter. -/
theorem scanFindall_entity_nil :
    ∀ (n : Nat) (b : Bool) (s : List Char),
      (∀ c ∈ s, c.isUpper = false) → scanFindall n b reEntity s = [] := by
  intro n
  induction n with
  | zero => intro b s _; rfl
  | succ n ih =>
    intro b s hs
    match s with
    | [] => rfl
    | c :: rest =>
      have hc : c.isUpper = false := hs c (by simp)
      have hrest : ∀ d ∈ rest, d.isUpper = false :=
        fun d hd => hs d (by simp [hd])
      unfold scanFindall
      by_cases hb : b
      · rw [if_pos hb]
        exact ih _ _ hrest
      · rw [if_neg hb, reSuffixes_entity_nil c rest hc]
        exact ih _ _ hrest

/-- Lowercasing kills every uppercase letter (ASCII): `c.toLower` is
never in the `A`–`Z` range. -/
theorem toLower_isUpper_false (c : Char) : (c.toLower).isUpper = false := by
  simp only [Char.toLower, Char.isUpper]
  split
  · next h =>
    obtain ⟨h1, h2⟩ := h
    have hval : (Char.ofNat (c.toNat + 32)).val.toNat = c.toNat + 32 := by
      rw [Char.ofNat, dif_pos (Or.inl (by omega))]
      simp [Char.ofNatAux, UInt32.toNat]
    rw [Bool.and_eq_false_iff]
    right
    rw [decide_eq_false_iff_not]
    intro hcon
    have hle : (Char.ofNat (c.toNat + 32)).val.toNat ≤ 90 :=
      UInt32.toNat_le_of_le (by decide) hcon
    omega
  · next h =>
    rw [Bool.and_eq_false_iff]
    by_cases h65 : 65 ≤ c.toNat
    · right
      rw [decide_eq_false_iff_not]
      intro hcon
      have hle : c.val.toNat ≤ 90 := UInt32.toNat_le_of_le (by decide) hcon
      exact h ⟨h65, hle⟩
    · left
      rw [decide_eq_false_iff_not]
      intro hcon
      have hge : 65 ≤ c.val.toNat := UInt32.le_toNat_of_le (by decide) hcon
      exact h65 hge

/-- The entity set of a lowercased string is empty. -/
theorem entitySet_lower_nil (s : List Char) : entitySet (lowerL s) = [] := by
  have h : reFindallB reEntity (lowerL s) = [] := by
    apply scanFindall_entity_nil
    intro c hc
    rw [lowerL, List.mem_map] at hc
    obtain ⟨d, -, rfl⟩ := hc
    exact toLower_isUpper_false d
  simp [entitySet, h]

/-- C3 — the capitalized-phrase component is dead in the matcher: the
Headline Matcher lowercases both the headline and the body before scoring,
and the entity regex requires an uppercase letter, so the component is 0
for every pair of texts as scored — even for the concrete pair that shares
the capitalized multi-word phrase "President Buhari Visits Lagos" — and
never contributes 2 points per shared phrase. -/
theorem C3_capitalized_component_dead :
    (∀ h c : List Char, entityScore (lowerL h) (lowerL c) = 0) ∧
      (∃ e ∈ entitySet c3headline,
        e ∈ entitySet (c3body.take 400) ∧ e.contains ' ' = true) ∧
      entityScore (lowerL c3headline) (lowerL c3body) = 0 := by
  have hgen : ∀ h c : List Char, entityScore (lowerL h) (lowerL c) = 0 := by
    intro h c
    simp [entityScore, entitySet_lower_nil]
  exact ⟨hgen, ⟨c3headline, by decide, by decide, by decide⟩,
    hgen c3headline c3body⟩

/-- Every article accumulated by the body loop is a news-article record
built by `buildNewsArticle`. -/
theorem matchBodyLoop_mem :
    ∀ (bodyStories headlines : List Parsed)
      (acc : List Article × List (List Char)) (a : Article),
      a ∈ (bodyStories.foldl (bodyStep headlines) acc).1 →
      a ∈ acc.1 ∨ ∃ b m, a = buildNewsArticle b m := by
  intro bodyStories
  induction bodyStories with
  | nil => exact fun headlines acc a h => Or.inl h
  | cons b rest ih =>
    intro headlines acc a h
    rw [List.foldl_cons] at h
    rcases ih headlines _ a h with hmem | hbuilt
    · unfold bodyStep at hmem
      dsimp only at hmem
      rw [List.mem_append] at hmem
      rcases hmem with hacc | hnew
      · exact Or.inl hacc
      · exact Or.inr ⟨b, _, List.mem_singleton.1 hnew⟩
    · exact Or.inr hbuilt

unseal Rat.add Rat.mul Rat.inv Rat.sub in
/-- C9 — counterexample: a document holding a single headline story emits
one standalone_headline article whose record carries *no* `content_html`
key and whose metadata carries *no* `html_paragraph_count` key (modelled
as `none`): the claim fails for standalone headlines. -/
theorem C9_counterexample :
    matchHeadlinesWithContent [hStory] = [buildStandaloneArticle hStory] ∧
      (buildStandaloneArticle hStory).articleType = sStandaloneHeadline ∧
      (buildStandaloneArticle hStory).contentHtml = none ∧
      (buildStandaloneArticle hStory).mHtmlParagraphCount = none := by
  exact ⟨by decide, by decide, by decide, by decide⟩

/-- C9 — amended: every emitted news_article carries a contentHtml and a
metadata HTML paragraph count equal to the number of `<p>` occurrences in
the rendered HTML (0 when the HTML is empty); standalone_headline records
carry neither field. -/
theorem C9_amended_fields (allStories : List Parsed) (a : Article)
    (ha : a ∈ matchHeadlinesWithContent allStories) :
    (a.articleType = sNewsArticle ∧ ∃ html, a.contentHtml = some html ∧
        a.mHtmlParagraphCount =
          some (if html.isEmpty then 0 else countPTags html)) ∨
      (a.articleType = sStandaloneHeadline ∧ a.contentHtml = none ∧
        a.mHtmlParagraphCount = none) := by
  simp only [matchHeadlinesWithContent] at ha
  rw [List.mem_append] at ha
  rcases ha with hbody | hstand
  · rcases matchBodyLoop_mem _ _ _ _ hbody with hacc | ⟨b, m, rfl⟩
    · exact absurd hacc (List.not_mem_nil a)
    · exact Or.inl ⟨rfl, generateRichContentHtml b, rfl, rfl⟩
  · rw [List.mem_filterMap] at hstand
    obtain ⟨h, -, hf⟩ := hstand
    by_cases hused : ((matchBodyLoop (partitionPools allStories).1
        (partitionPools allStories).2).2).contains h.storyId
    · rw [if_pos hused] at hf
      exact absurd hf (by simp)
    · rw [if_neg hused] at hf
      obtain rfl := Option.some_injective _ hf
      exact Or.inr ⟨rfl, rfl, rfl⟩

unseal Rat.add Rat.mul Rat.inv Rat.sub in
/-- C9 — witness: the amended statement applied to the standalone article
emitted for the single-headline document. -/
theorem C9_amended_witness :
    ((buildStandaloneArticle hStory).articleType = sNewsArticle ∧
      ∃ html, (buildStandaloneArticle hStory).contentHtml = some html ∧
        (buildStandaloneArticle hStory).mHtmlParagraphCount =
          some (if html.isEmpty then 0 else countPTags html)) ∨
    ((buildStandaloneArticle hStory).articleType = sStandaloneHeadline ∧
      (buildStandaloneArticle hStory).contentHtml = none ∧
      (buildStandaloneArticle hStory).mHtmlParagraphCount = none) :=
  C9_amended_fields [hStory] (buildStandaloneArticle hStory) (by decide)

/-- One step of strategy 3 preserves the first-maximum invariant over the
processed eligible headlines. -/
theorem strategy3Step_inv (body : Parsed) (used : List (List Char))
    (E : List Parsed) (st : Option Parsed × ℚ) (h : Parsed)
    (helig : used.contains h.storyId = false)
    (hinv : (st.1 = none ∧ ∀ x ∈ E, combinedScore body x ≤ st.2) ∨
      (∃ h0 l1 l2, st.1 = some h0 ∧ st.2 = combinedScore body h0 ∧
        E = l1 ++ h0 :: l2 ∧
        (∀ x ∈ l1, combinedScore body x < st.2) ∧
        (∀ x ∈ l2, combinedScore body x ≤ st.2))) :
    ((strategy3Step body used st h).1 = none ∧
        ∀ x ∈ E ++ [h],
          combinedScore body x ≤ (strategy3Step body used st h).2) ∨
      (∃ h0 l1 l2, (strategy3Step body used st h).1 = some h0 ∧
        (strategy3Step body used st h).2 = combinedScore body h0 ∧
        E ++ [h] = l1 ++ h0 :: l2 ∧
        (∀ x ∈ l1, combinedScore body x <
          (strategy3Step body used st h).2) ∧
        (∀ x ∈ l2, combinedScore body x ≤
          (strategy3Step body used st h).2)) := by
  unfold strategy3Step
  rw [if_neg (by rw [helig]; exact Bool.false_ne_true)]
  by_cases hlt : st.2 < combinedScore body h
  · rw [if_pos hlt]
    right
    refine ⟨h, E, [], rfl, rfl, rfl, ?_, by simp⟩
    intro x hx
    dsimp only
    rcases hinv with ⟨-, hall⟩ | ⟨h0, l1, l2, -, hsc, rfl, hl1, hl2⟩
    · exact lt_of_le_of_lt (hall x hx) hlt
    · rw [List.mem_append, List.mem_cons] at hx
      rcases hx with hx | hx | hx
      · exact lt_trans (hl1 x hx) hlt
      · rw [hx, ← hsc]
        exact hlt
      · exact lt_of_le_of_lt (hl2 x hx) hlt
  · rw [if_neg hlt]
    rcases hinv with ⟨hnone, hall⟩ | ⟨h0, l1, l2, hsome, hsc, hE, hl1, hl2⟩
    · left
      refine ⟨hnone, ?_⟩
      intro x hx
      rw [List.mem_append, List.mem_singleton] at hx
      rcases hx with hx | rfl
      · exact hall x hx
      · exact le_of_not_lt hlt
    · right
      refine ⟨h0, l1, l2 ++ [h], hsome, hsc, by rw [hE]; simp, hl1, ?_⟩
      intro x hx
      rw [List.mem_append, List.mem_singleton] at hx
      rcases hx with hx | rfl
      · exact hl2 x hx
      · exact le_of_not_lt hlt

/-- The strategy-3 fold maintains the first-maximum invariant across a
whole headline list. -/
theorem strategy3Fold_inv (body : Parsed) (used : List (List Char)) :
    ∀ (hs : List Parsed) (E : List Parsed) (st : Option Parsed × ℚ),
      ((st.1 = none ∧ ∀ x ∈ E, combinedScore body x ≤ st.2) ∨
        (∃ h0 l1 l2, st.1 = some h0 ∧ st.2 = combinedScore body h0 ∧
          E = l1 ++ h0 :: l2 ∧
          (∀ x ∈ l1, combinedScore body x < st.2) ∧
          (∀ x ∈ l2, combinedScore body x ≤ st.2))) →
      (((hs.foldl (strategy3Step body used) st).1 = none ∧
          ∀ x ∈ E ++ hs.filter (fun x => !used.contains x.storyId),
            combinedScore body x ≤
              (hs.foldl (strategy3Step body used) st).2) ∨
        (∃ h0 l1 l2,
          (hs.foldl (strategy3Step body used) st).1 = some h0 ∧
          (hs.foldl (strategy3Step body used) st).2 =
            combinedScore body h0 ∧
          E ++ hs.filter (fun x => !used.contains x.storyId) =
            l1 ++ h0 :: l2 ∧
          (∀ x ∈ l1, combinedScore body x <
            (hs.foldl (strategy3Step body used) st).2) ∧
          (∀ x ∈ l2, combinedScore body x ≤
            (hs.foldl (strategy3Step body used) st).2))) := by
  intro hs
  induction hs with
  | nil =>
    intro E st hinv
    simpa using hinv
  | cons h rest ih =>
    intro E st hinv
    rw [List.foldl_cons, List.filter_cons]
    by_cases helig : used.contains h.storyId
    · have : (!used.contains h.storyId) = false := by rw [helig]; rfl
      rw [this, if_neg Bool.false_ne_true]
      have hstep : strategy3Step body used st h = st := by
        unfold strategy3Step
        rw [if_pos helig]
      rw [hstep]
      exact ih E st hinv
    · have hne : used.contains h.storyId = false :=
        Bool.not_eq_true _ ▸ eq_false_of_ne_true helig
      have : (!used.contains h.storyId) = true := by rw [hne]; rfl
      rw [this, if_pos rfl]
      have h2 := ih (E ++ [h]) (strategy3Step body used st h)
        (strategy3Step_inv body used E st h hne hinv)
      rwa [List.append_assoc, List.singleton_append] at h2

/-- C10: in the combined-scoring stage, the selected headline is the first
eligible headline attaining the maximal combined score — every eligible
headline scanned before it scores strictly less, every one after it scores
no more, and the recorded best score is its score.  The stage is a pure
function of the story order, so the result is deterministic. -/
theorem C10_combined_stage_first_max (body : Parsed)
    (headlines : List Parsed) (used : List (List Char)) (h : Parsed)
    (hres : (strategy3Fold body headlines used).1 = some h) :
    ∃ l1 l2,
      headlines.filter (fun x => !used.contains x.storyId) =
        l1 ++ h :: l2 ∧
      (strategy3Fold body headlines used).2 = combinedScore body h ∧
      (∀ x ∈ l1, combinedScore body x < combinedScore body h) ∧
      (∀ x ∈ l2, combinedScore body x ≤ combinedScore body h) := by
  unfold strategy3Fold at hres ⊢
  have hinv := strategy3Fold_inv body used headlines [] (none, -1)
    (Or.inl ⟨rfl, by simp⟩)
  rcases hinv with ⟨hnone, -⟩ | ⟨h0, l1, l2, hsome, hsc, hdec, hl1, hl2⟩
  · rw [hres] at hnone
    exact absurd hnone (by simp)
  · rw [hres] at hsome
    obtain rfl := Option.some_injective _ hsome.symm
    rw [List.nil_append] at hdec
    exact ⟨l1, l2, hdec, hsc, fun x hx => hsc ▸ hl1 x hx,
      fun x hx => hsc ▸ hl2 x hx⟩

unseal Rat.add Rat.mul Rat.inv Rat.sub in
/-- C10 — witness: the stage applied to one eligible headline at id
distance 1 selects it, and the first-maximum decomposition holds. -/
theorem C10_combined_stage_witness :
    ∃ l1 l2,
      [tinyHead].filter (fun x => !List.contains [] x.storyId) =
        l1 ++ tinyHead :: l2 ∧
      (strategy3Fold tinyBody [tinyHead] []).2 =
        combinedScore tinyBody tinyHead ∧
      (∀ x ∈ l1, combinedScore tinyBody x <
        combinedScore tinyBody tinyHead) ∧
      (∀ x ∈ l2, combinedScore tinyBody x ≤
        combinedScore tinyBody tinyHead) :=
  C10_combined_stage_first_max tinyBody [tinyHead] [] tinyHead (by decide)


theorem dropWhile_head_false (p : Char → Bool) (l : List Char) :
    List.dropWhile p l = [] ∨
      ∃ c t, List.dropWhile p l = c :: t ∧ p c = false := by
  induction l with
  | nil => exact Or.inl rfl
  | cons c t ih =>
    rw [List.dropWhile_cons]
    by_cases hc : p c
    · rw [if_pos hc]; exact ih
    · rw [if_neg hc]
      exact Or.inr ⟨c, t, rfl, by simpa using hc⟩

theorem dropWhile_idem (p : Char → Bool) (l : List Char) :
    List.dropWhile p (List.dropWhile p l) = List.dropWhile p l := by
  rcases dropWhile_head_false p l with h | ⟨c, t, h, hc⟩ <;> rw [h]
  · rfl
  · rw [List.dropWhile_cons, if_neg (by simp [hc])]

theorem pyStrip_expand (l : List Char) :
    pyStrip l =
      ((l.dropWhile isPySpace).reverse.dropWhile isPySpace).reverse := rfl

theorem pyStrip_dropWhile (l : List Char) :
    List.dropWhile isPySpace (pyStrip l) = pyStrip l := by
  rw [pyStrip_expand]
  rcases dropWhile_head_false isPySpace l with hA | ⟨c, t, hA, hc⟩
  · rw [hA]; rfl
  · rw [hA]
    rcases hB : List.dropWhile isPySpace (c :: t).reverse with _ | ⟨c2, r2⟩
    · rfl
    · have hpre : (c2 :: r2).reverse <+: (c :: t) := by
        have hsuf : (c2 :: r2) <:+ (c :: t).reverse :=
          hB ▸ List.dropWhile_suffix _
        rw [← List.reverse_reverse (c2 :: r2)] at hsuf
        exact List.reverse_suffix.mp hsuf
      obtain ⟨u, hu⟩ := hpre
      rcases hrev : (c2 :: r2).reverse with _ | ⟨d, rd⟩
      · exact absurd hrev (by simp)
      · rw [hrev] at hu
        have hd : d = c := by
          rw [List.cons_append] at hu
          exact (List.cons.injEq _ _ _ _ ▸ hu).1
        rw [List.dropWhile_cons, if_neg (by simp [hd, hc])]

theorem pyStrip_idem (l : List Char) : pyStrip (pyStrip l) = pyStrip l := by
  have key2 : List.dropWhile isPySpace (pyStrip l).reverse =
      (pyStrip l).reverse := by
    rw [pyStrip_expand, List.reverse_reverse]
    exact dropWhile_idem _ _
  rw [pyStrip_expand (pyStrip l), pyStrip_dropWhile, key2,
    List.reverse_reverse]

theorem pyStrip_length_le (l : List Char) :
    (pyStrip l).length ≤ l.length := by
  rw [pyStrip_expand, List.length_reverse]
  calc (List.dropWhile isPySpace (l.dropWhile isPySpace).reverse).length
      ≤ (l.dropWhile isPySpace).reverse.length :=
        (List.dropWhile_suffix _).length_le
    _ = (l.dropWhile isPySpace).length := List.length_reverse _
    _ ≤ l.length := (List.dropWhile_suffix _).length_le


theorem reMatchA_length_le (recur : RE → List Char → List (List Char))
    (hrec : ∀ r s t, t ∈ recur r s → t.length ≤ s.length) :
    ∀ (r : RE) (s t : List Char), t ∈ reMatchA recur r s →
      t.length ≤ s.length := by
  intro r
  induction r with
  | eps =>
    intro s t ht
    rw [reMatchA, List.mem_singleton] at ht
    exact ht ▸ le_refl _
  | cls p =>
    intro s t ht
    match s with
    | [] => simp [reMatchA] at ht
    | c :: rest =>
      simp only [reMatchA] at ht
      by_cases hp : p c
      · rw [if_pos hp, List.mem_singleton] at ht
        exact ht ▸ by simp
      · rw [if_neg hp] at ht
        exact absurd ht (by simp)
  | seq a b iha ihb =>
    intro s t ht
    rw [reMatchA.eq_def] at ht
    rw [List.mem_flatMap] at ht
    obtain ⟨u, hu, htu⟩ := ht
    exact le_trans (ihb u t htu) (iha s u hu)
  | alt a b iha ihb =>
    intro s t ht
    rw [reMatchA.eq_def] at ht
    rw [List.mem_append] at ht
    rcases ht with ht | ht
    · exact iha s t ht
    · exact ihb s t ht
  | star r ihr =>
    intro s t ht
    rw [reMatchA.eq_def] at ht
    rw [List.mem_append] at ht
    rcases ht with ht | ht
    · rw [List.mem_flatMap] at ht
      obtain ⟨s2, hs2, ht2⟩ := ht
      rw [List.mem_filter] at hs2
      have h1 : s2.length < s.length := by
        have := hs2.2
        simpa using this
      exact le_trans (hrec _ s2 t ht2) (le_of_lt h1)
    · rw [List.mem_singleton] at ht
      exact ht ▸ le_refl _
  | nwb =>
    intro s t ht
    match s with
    | [] =>
      simp only [reMatchA, List.mem_singleton] at ht
      exact ht ▸ by simp
    | c :: rest =>
      simp only [reMatchA] at ht
      by_cases hw : isWordChar c
      · rw [if_pos hw] at ht
        exact absurd ht (by simp)
      · rw [if_neg hw, List.mem_singleton] at ht
        exact ht ▸ le_refl _
  | eol =>
    intro s t ht
    match s with
    | [] =>
      simp only [reMatchA, List.mem_singleton] at ht
      exact ht ▸ by simp
    | [c] =>
      simp only [reMatchA] at ht
      by_cases hn : c == '\n'
      · rw [if_pos hn, List.mem_singleton] at ht
        exact ht ▸ le_refl _
      · rw [if_neg hn] at ht
        exact absurd ht (by simp)
    | c :: d :: rest => simp [reMatchA] at ht

theorem reMatch_length_le :
    ∀ (n : Nat) (r : RE) (s t : List Char), t ∈ reMatch n r s →
      t.length ≤ s.length := by
  intro n
  induction n with
  | zero =>
    intro r s t
    rw [reMatch]
    exact reMatchA_length_le _ (by simp) r s t
  | succ n ih =>
    intro r s t
    rw [reMatch]
    exact reMatchA_length_le _ ih r s t

theorem ciCharEq_comm (a b : Char) : ciCharEq a b = ciCharEq b a := by
  simp only [ciCharEq]
  rcases h : a.toLower == b.toLower with _ | _
  · rw [beq_eq_false_iff_ne] at h
    rw [eq_comm, beq_eq_false_iff_ne]
    exact fun hc => h hc.symm
  · rw [beq_iff_eq] at h
    rw [eq_comm, beq_iff_eq]
    exact h.symm

theorem reMatchA_litCI_nil (recur : RE → List Char → List (List Char)) :
    ∀ (a s : List Char), startsWithCI a s = false →
      reMatchA recur (reLitCI a) s = [] := by
  intro a
  induction a with
  | nil =>
    intro s h
    exact absurd h (by simp [startsWithCI])
  | cons c cs ih =>
    intro s h
    rw [reLitCI]
    match s with
    | [] => simp [reMatchA]
    | d :: ds =>
      simp only [reMatchA]
      by_cases hcd : ciCharEq d c
      · rw [if_pos hcd]
        have htail : startsWithCI cs ds = false := by
          rw [startsWithCI] at h
          rcases Bool.and_eq_false_iff.mp h with h1 | h1
          · rw [ciCharEq_comm] at hcd
            exact absurd hcd (by simp [h1])
          · exact h1
        simp [ih ds htail]
      · rw [if_neg hcd]
        simp


theorem reSeqs_cons (x : RE) (l : List RE) :
    reSeqs (x :: l) = .seq x (reSeqs l) := rfl

theorem reMatchA_seq_litCI_lt (recur : RE → List Char → List (List Char))
    (hrec : ∀ r s t, t ∈ recur r s → t.length ≤ s.length)
    (c : Char) (cs : List Char) (k : RE) (s t : List Char)
    (ht : t ∈ reMatchA recur (.seq (reLitCI (c :: cs)) k) s) :
    t.length < s.length := by
  rw [reMatchA.eq_def] at ht
  rw [List.mem_flatMap] at ht
  obtain ⟨u, hu, htu⟩ := ht
  rw [reLitCI] at hu
  rw [reMatchA.eq_def] at hu
  rw [List.mem_flatMap] at hu
  obtain ⟨v, hv, huv⟩ := hu
  match s with
  | [] => simp [reMatchA] at hv
  | d :: ds =>
    simp only [reMatchA] at hv
    by_cases hcd : ciCharEq d c
    · rw [if_pos hcd, List.mem_singleton] at hv
      subst hv
      have h1 : u.length ≤ v.length := reMatchA_length_le recur hrec _ _ _ huv
      have h2 : t.length ≤ u.length := reMatchA_length_le recur hrec _ _ _ htu
      simp only [List.length_cons]
      omega
    · rw [if_neg hcd] at hv
      exact absurd hv (by simp)

theorem reSuffixes_seq_litCI_lt (c : Char) (cs : List Char) (k : RE)
    (s t : List Char) (ht : t ∈ reSuffixes (.seq (reLitCI (c :: cs)) k) s) :
    t.length < s.length := by
  have hstep : reSuffixes (.seq (reLitCI (c :: cs)) k) s =
      reMatchA (reMatch s.length) (.seq (reLitCI (c :: cs)) k) s := rfl
  rw [hstep] at ht
  exact reMatchA_seq_litCI_lt _ (reMatch_length_le _) c cs k s t ht

theorem reSuffixes_seq_litCI_nil (a : List Char) (k : RE) (s : List Char)
    (h : startsWithCI a s = false) :
    reSuffixes (.seq (reLitCI a) k) s = [] := by
  have hstep : reSuffixes (.seq (reLitCI a) k) s =
      reMatchA (reMatch s.length) (.seq (reLitCI a) k) s := rfl
  rw [hstep]
  rw [reMatchA.eq_def]
  dsimp only
  rw [reMatchA_litCI_nil _ a s h]
  rfl

theorem removalLoop_cases (c : List Char) (rs : List RE) :
    removalLoop c rs = c ∨ ∃ x, removalLoop c rs = pyStrip x := by
  induction rs with
  | nil => exact Or.inl rfl
  | cons r rest ih =>
    simp only [removalLoop]
    by_cases hne : pyStrip (reSubAnchored r c) ≠ c
    · rw [if_pos hne]
      exact Or.inr ⟨_, rfl⟩
    · rw [if_neg hne]
      exact ih

theorem subAnchored_strip_eq (a : List Char) (ha : a ≠ []) (k : RE)
    (p : List Char)
    (h : pyStrip (reSubAnchored (.seq (reLitCI a) k) p) = p) :
    pyStrip p = p := by
  rcases a with _ | ⟨c, cs⟩
  · exact absurd rfl ha
  rcases hsuf : reSuffixes (.seq (reLitCI (c :: cs)) k) p with _ | ⟨s2, rest⟩
  · rw [reSubAnchored, hsuf] at h
    exact h
  · exfalso
    have hmem : s2 ∈ reSuffixes (.seq (reLitCI (c :: cs)) k) p := by
      rw [hsuf]; simp
    have hlt : s2.length < p.length :=
      reSuffixes_seq_litCI_lt c cs k p s2 hmem
    rw [reSubAnchored, hsuf] at h
    have : (pyStrip s2).length ≤ s2.length := pyStrip_length_le s2
    have hplen : (pyStrip s2).length = p.length := by rw [h]
    omega

theorem removalLoop_cons_eq (c : List Char) (r : RE) (rs : List RE)
    (h : removalLoop c (r :: rs) = c) : pyStrip (reSubAnchored r c) = c := by
  simp only [removalLoop] at h
  split at h
  · exact h
  · next hcond => exact not_not.mp hcond

theorem removalLoop_first_strip (p a : List Char) (ha : a ≠ [])
    (h : removalLoop p (removalPatterns a) = p) : pyStrip p = p := by
  simp only [removalPatterns] at h
  have h1 := removalLoop_cons_eq p _ _ h
  exact subAnchored_strip_eq a ha
    (reSeqs [reLit sComma, wsPlus, rePlus clsLetter, wsStar]) p h1

theorem remove_stripped (p a : List Char) (ha : a ≠ []) :
    pyStrip (removeExactAuthorFromParagraph p a) =
      removeExactAuthorFromParagraph p a := by
  have hae : a.isEmpty = false := by
    rcases a with _ | ⟨c, cs⟩
    · exact absurd rfl ha
    · rfl
  unfold removeExactAuthorFromParagraph
  rw [hae]
  simp only [Bool.false_eq_true, if_false]
  rcases removalLoop_cases p (removalPatterns a) with hc | ⟨x, hc⟩
  · rw [hc]
    rw [if_pos (beq_self_eq_true p)]
    have hps : pyStrip p = p := removalLoop_first_strip p a ha hc
    rcases hsearch : reSearchPosB reFunctionWord p with _ | i
    · exact hps
    · exact pyStrip_idem _
  · rw [hc]
    by_cases heq : (pyStrip x == p) = true
    · rw [if_pos heq]
      rcases hsearch : reSearchPosB reFunctionWord p with _ | i
      · exact pyStrip_idem _
      · exact pyStrip_idem _
    · rw [if_neg heq]
      exact pyStrip_idem _

theorem removalLoop_id (t : List Char) (hstr : pyStrip t = t) :
    ∀ rs : List RE, (∀ r ∈ rs, reSubAnchored r t = t) →
      removalLoop t rs = t := by
  intro rs
  induction rs with
  | nil => intro _; rfl
  | cons r rest ih =>
    intro hall
    simp only [removalLoop]
    rw [hall r (by simp), hstr, if_neg (by simp)]
    exact ih fun r2 hr2 => hall r2 (by simp [hr2])


/-- C2 — counterexample: with the extractable author "John" and the
paragraph "John John went home", one removal pass strips one "John" and a
second pass strips the next, so removal applied to the already-cleaned
text changes it again: author removal is not idempotent. -/
theorem C2_counterexample :
    extractAuthorFromBody c2body = c2author ∧
      removeExactAuthorFromParagraph
          (removeExactAuthorFromParagraph c2para c2author) c2author ≠
        removeExactAuthorFromParagraph c2para c2author := by
  exact ⟨by decide, by decide⟩

/-- C2 — amended: author removal is idempotent on the already-cleaned
text provided the cleaned text does not itself begin (case-insensitively)
with the author and its first function-word occurrence, if any, is at the
very start: under those conditions the four removal patterns cannot fire
again and the function-word fallback cuts nothing, so a second application
returns the text unchanged. -/
theorem C2_amended_conditional_idempotence (a p : List Char) (ha : a ≠ [])
    (h1 : startsWithCI a (removeExactAuthorFromParagraph p a) = false)
    (h2 : reSearchPosB reFunctionWord
        (removeExactAuthorFromParagraph p a) = none ∨
      reSearchPosB reFunctionWord
        (removeExactAuthorFromParagraph p a) = some 0) :
    removeExactAuthorFromParagraph (removeExactAuthorFromParagraph p a) a =
      removeExactAuthorFromParagraph p a := by
  have hstr := remove_stripped p a ha
  set t := removeExactAuthorFromParagraph p a with htdef
  have hae : a.isEmpty = false := by
    rcases a with _ | ⟨c, cs⟩
    · exact absurd rfl ha
    · rfl
  have hsub : ∀ r ∈ removalPatterns a, reSubAnchored r t = t := by
    intro r hr
    have hnil : reSuffixes r t = [] := by
      simp only [removalPatterns, List.mem_cons, List.not_mem_nil,
        or_false] at hr
      rcases hr with rfl | rfl | rfl | rfl
      · exact reSuffixes_seq_litCI_nil a _ t h1
      · exact reSuffixes_seq_litCI_nil a _ t h1
      · exact reSuffixes_seq_litCI_nil a _ t h1
      · exact reSuffixes_seq_litCI_nil a _ t h1
    simp [reSubAnchored, hnil]
  have hloop : removalLoop t (removalPatterns a) = t :=
    removalLoop_id t hstr _ hsub
  unfold removeExactAuthorFromParagraph
  rw [hae]
  simp only [Bool.false_eq_true, if_false]
  rw [hloop, if_pos (beq_self_eq_true t)]
  rcases h2 with h2 | h2 <;> rw [h2]
  show pyStrip (t.drop 0) = t
  rw [List.drop_zero]
  exact hstr

/-- C2 — witness: the amended statement at the author "John" and the
paragraph "John, Lagos The measure failed", whose cleaned text "The
measure failed" starts with a function word at position 0. -/
theorem C2_amended_witness :
    removeExactAuthorFromParagraph
        (removeExactAuthorFromParagraph c2paraB c2author) c2author =
      removeExactAuthorFromParagraph c2paraB c2author :=
  C2_amended_conditional_idempotence c2author c2paraB (by decide) (by decide)
    (Or.inr (by decide))



theorem pickFirstMax_mem_aux :
    ∀ (l : List (Parsed × ℚ)) (st : Option (Parsed × ℚ)) (y : Parsed × ℚ),
      l.foldl
        (fun best x =>
          match best with
          | none => some x
          | some b => if b.2 < x.2 then some x else some b) st = some y →
      st = some y ∨ y ∈ l := by
  intro l
  induction l with
  | nil => exact fun st y h => Or.inl h
  | cons x rest ih =>
    intro st y h
    rw [List.foldl_cons] at h
    rcases ih _ y h with hstep | hmem
    · match st with
      | none =>
        simp only at hstep
        exact Or.inr (by rw [← Option.some_injective _ hstep]; simp)
      | some b =>
        simp only at hstep
        by_cases hlt : b.2 < x.2
        · rw [if_pos hlt] at hstep
          exact Or.inr (by rw [← Option.some_injective _ hstep]; simp)
        · rw [if_neg hlt] at hstep
          exact Or.inl hstep
    · exact Or.inr (List.mem_cons_of_mem _ hmem)

theorem pickFirstMax_mem (l : List (Parsed × ℚ)) (y : Parsed × ℚ)
    (h : pickFirstMax l = some y) : y ∈ l := by
  unfold pickFirstMax at h
  rcases pickFirstMax_mem_aux l none y h with hn | hm
  · exact absurd hn (by simp)
  · exact hm

theorem strategy3Fold_mem_unused (body : Parsed) (headlines : List Parsed)
    (used : List (List Char)) (h : Parsed)
    (hres : (strategy3Fold body headlines used).1 = some h) :
    h ∈ headlines ∧ used.contains h.storyId = false := by
  have hinv := strategy3Fold_inv body used headlines [] (none, -1)
    (Or.inl ⟨rfl, by simp⟩)
  unfold strategy3Fold at hres
  rcases hinv with ⟨hnone, -⟩ | ⟨h0, l1, l2, hsome, -, hdec, -, -⟩
  · rw [hres] at hnone
    exact absurd hnone (by simp)
  · rw [hres] at hsome
    have heq : h0 = h := Option.some_injective _ hsome.symm
    rw [List.nil_append] at hdec
    have hmem : h0 ∈ headlines.filter fun x => !used.contains x.storyId := by
      rw [hdec]; simp
    rw [List.mem_filter] at hmem
    rw [← heq]
    exact ⟨hmem.1, by simpa using hmem.2⟩

theorem strategy1Result_mem_unused (body : Parsed) (headlines : List Parsed)
    (used : List (List Char)) (h : Parsed)
    (hres : strategy1Result body headlines used = some h) :
    h ∈ headlines ∧ used.contains h.storyId = false := by
  unfold strategy1Result at hres
  rcases hpfm : pickFirstMax (contentMatchesOf body headlines used)
    with _ | y
  · rw [hpfm] at hres
    exact absurd hres (by simp)
  · rw [hpfm] at hres
    dsimp only at hres
    by_cases h2 : 2 ≤ y.2
    · rw [if_pos h2] at hres
      obtain rfl := Option.some_injective _ hres
      have hy := pickFirstMax_mem _ _ hpfm
      rw [contentMatchesOf, List.mem_filterMap] at hy
      obtain ⟨h0, hh0, hf⟩ := hy
      by_cases hc : used.contains h0.storyId
      · rw [if_pos hc] at hf
        exact absurd hf (by simp)
      · rw [if_neg hc] at hf
        by_cases hsc : 0 < calculateContentSimilarity (lowerL h0.rawContent)
            (lowerL body.rawContent)
        · rw [if_pos hsc] at hf
          obtain heq := Option.some_injective _ hf
          have : y.1 = h0 := by rw [← heq]
          rw [this]
          exact ⟨hh0, by simpa using hc⟩
        · rw [if_neg hsc] at hf
          exact absurd hf (by simp)
    · rw [if_neg h2] at hres
      exact absurd hres (by simp)

theorem findMatchingHeadline_mem_unused (body : Parsed)
    (headlines : List Parsed) (used : List (List Char)) (h : Parsed)
    (hres : findMatchingHeadline body headlines used = some h) :
    h ∈ headlines ∧ used.contains h.storyId = false := by
  unfold findMatchingHeadline at hres
  rcases hs1 : strategy1Result body headlines used with _ | h1
  · rw [hs1] at hres
    dsimp only at hres
    rcases hs3 : (strategy3Fold body headlines used).1 with _ | h3
    · rw [hs3] at hres
      exact absurd hres (by simp)
    · rw [hs3] at hres
      dsimp only at hres
      by_cases hsc : 1 ≤ (strategy3Fold body headlines used).2
      · rw [if_pos hsc] at hres
        have heq : h3 = h := Option.some_injective _ hres
        rw [← heq]
        exact strategy3Fold_mem_unused body headlines used h3 hs3
      · rw [if_neg hsc] at hres
        exact absurd hres (by simp)
  · rw [hs1] at hres
    dsimp only at hres
    have heq : h1 = h := Option.some_injective _ hres
    rw [← heq]
    exact strategy1Result_mem_unused body headlines used h1 hs1


theorem contains_append_left (l1 l2 : List (List Char)) (i : List Char)
    (h : l1.contains i = true) : (l1 ++ l2).contains i = true := by
  rw [List.contains, List.elem_iff] at h ⊢
  exact List.mem_append.2 (Or.inl h)

theorem contains_append_self (l1 : List (List Char)) (i : List Char) :
    (l1 ++ [i]).contains i = true := by
  rw [List.contains, List.elem_iff]
  exact List.mem_append.2 (Or.inr (by simp))

theorem matchBodyLoop_inv (headlines : List Parsed) :
    ∀ (bodyStories : List Parsed) (acc : List Article × List (List Char)),
      ((acc.1.map fun a => a.headlineStoryId).filter
        fun i => !i.isEmpty).Nodup →
      (∀ i ∈ (acc.1.map fun a => a.headlineStoryId).filter
        fun i => !i.isEmpty, acc.2.contains i = true) →
      (∀ i, acc.2.contains i = true →
        (bodyStories.foldl (bodyStep headlines) acc).2.contains i = true) ∧
      (((bodyStories.foldl (bodyStep headlines) acc).1.map
          fun a => a.headlineStoryId).filter fun i => !i.isEmpty).Nodup ∧
      (∀ i ∈ ((bodyStories.foldl (bodyStep headlines) acc).1.map
          fun a => a.headlineStoryId).filter fun i => !i.isEmpty,
        (bodyStories.foldl (bodyStep headlines) acc).2.contains i = true) := by
  intro bodyStories
  induction bodyStories with
  | nil =>
    intro acc h1 h2
    exact ⟨fun i hi => hi, h1, h2⟩
  | cons b rest ih =>
    intro acc h1 h2
    rw [List.foldl_cons]
    have hstep : bodyStep headlines acc b =
        (acc.1 ++ [buildNewsArticle b (findMatchingHeadline b headlines acc.2)],
          match findMatchingHeadline b headlines acc.2 with
          | some mh => acc.2 ++ [mh.storyId]
          | none => acc.2) := rfl
    rcases hm : findMatchingHeadline b headlines acc.2 with _ | mh
    · -- no match: the new id is empty and is filtered out
      have hstep2 : bodyStep headlines acc b =
          (acc.1 ++ [buildNewsArticle b none], acc.2) := by
        rw [hstep, hm]
      rw [hstep2]
      have hfilter :
          (((acc.1 ++ [buildNewsArticle b none]).map
            fun a => a.headlineStoryId).filter fun i => !i.isEmpty) =
          ((acc.1.map fun a => a.headlineStoryId).filter
            fun i => !i.isEmpty) := by
        rw [List.map_append, List.filter_append]
        simp [buildNewsArticle]
      exact ih (acc.1 ++ [buildNewsArticle b none], acc.2)
        (by rw [hfilter]; exact h1) (by rw [hfilter]; exact h2)
    · -- match: the matched id was unused
      have hmu := findMatchingHeadline_mem_unused b headlines acc.2 mh hm
      have hstep2 : bodyStep headlines acc b =
          (acc.1 ++ [buildNewsArticle b (some mh)], acc.2 ++ [mh.storyId]) := by
        rw [hstep, hm]
      rw [hstep2]
      by_cases hk : mh.storyId.isEmpty
      · -- empty id: filtered out, invariants carried by monotonicity
        have hfilter :
            (((acc.1 ++ [buildNewsArticle b (some mh)]).map
              fun a => a.headlineStoryId).filter fun i => !i.isEmpty) =
            ((acc.1.map fun a => a.headlineStoryId).filter
              fun i => !i.isEmpty) := by
          rw [List.map_append, List.filter_append]
          simp [buildNewsArticle, hk]
        have hres := ih (acc.1 ++ [buildNewsArticle b (some mh)],
            acc.2 ++ [mh.storyId])
          (by rw [hfilter]; exact h1)
          (by rw [hfilter]
              intro i hi
              exact contains_append_left _ _ _ (h2 i hi))
        exact ⟨fun i hi => hres.1 i (contains_append_left _ _ _ hi),
          hres.2.1, hres.2.2⟩
      · -- fresh nonempty id appended
        have hfilter :
            (((acc.1 ++ [buildNewsArticle b (some mh)]).map
              fun a => a.headlineStoryId).filter fun i => !i.isEmpty) =
            ((acc.1.map fun a => a.headlineStoryId).filter
              fun i => !i.isEmpty) ++ [mh.storyId] := by
          rw [List.map_append, List.filter_append]
          simp [buildNewsArticle, hk]
        have hnotin : mh.storyId ∉
            ((acc.1.map fun a => a.headlineStoryId).filter
              fun i => !i.isEmpty) := by
          intro hin
          have := h2 _ hin
          rw [hmu.2] at this
          exact absurd this (by simp)
        have hres := ih (acc.1 ++ [buildNewsArticle b (some mh)],
            acc.2 ++ [mh.storyId])
          (by rw [hfilter, List.nodup_append]
              exact ⟨h1, by simp, by
                intro i hi hi2
                rw [List.mem_singleton] at hi2
                exact hnotin (hi2 ▸ hi)⟩)
          (by rw [hfilter]
              intro i hi
              rw [List.mem_append, List.mem_singleton] at hi
              rcases hi with hi | rfl
              · exact contains_append_left _ _ _ (h2 i hi)
              · exact contains_append_self _ _)
        exact ⟨fun i hi => hres.1 i (contains_append_left _ _ _ hi),
          hres.2.1, hres.2.2⟩


theorem standalone_ids (used : List (List Char)) (headlines : List Parsed) :
    ((headlines.filterMap fun h =>
        if used.contains h.storyId then none
        else some (buildStandaloneArticle h)).map fun a => a.headlineStoryId)
      = (headlines.filter fun h => !used.contains h.storyId).map
          fun h => h.storyId := by
  induction headlines with
  | nil => rfl
  | cons h rest ih =>
    rw [List.filterMap_cons, List.filter_cons]
    by_cases hc : used.contains h.storyId
    · rw [if_pos hc]
      have hb : (!used.contains h.storyId) = false := by rw [hc]; rfl
      rw [hb, if_neg Bool.false_ne_true]
      exact ih
    · have hcf : used.contains h.storyId = false := by
        simpa using hc
      rw [if_neg hc]
      have hb : (!used.contains h.storyId) = true := by rw [hcf]; rfl
      rw [hb, if_pos rfl, List.map_cons, List.map_cons, ih]
      rfl

/-- C6: no headline story id appears as the `headlineStoryId` of more
than one output article — a matched headline is marked used, never
matched again, and never emitted as a standalone headline — provided the
headline pool's story ids are pairwise distinct. -/
theorem C6_at_most_one_headline_use (allStories : List Parsed)
    (hnodup : ((partitionPools allStories).1.map fun h => h.storyId).Nodup) :
    ∀ hid : List Char, hid ≠ [] →
      (matchHeadlinesWithContent allStories).countP
        (fun a => a.headlineStoryId == hid) ≤ 1 := by
  intro hid hid_ne
  have hout : matchHeadlinesWithContent allStories =
      (matchBodyLoop (partitionPools allStories).1
        (partitionPools allStories).2).1 ++
      (partitionPools allStories).1.filterMap (fun h =>
        if (matchBodyLoop (partitionPools allStories).1
            (partitionPools allStories).2).2.contains h.storyId then none
        else some (buildStandaloneArticle h)) := rfl
  have hinv := matchBodyLoop_inv (partitionPools allStories).1
    (partitionPools allStories).2 ([], []) (by simp) (by simp)
  obtain ⟨-, hA_nodup, hA_used⟩ := hinv
  -- the nonempty headline ids of the whole output form a Nodup list
  have hL : (((matchHeadlinesWithContent allStories).map
      fun a => a.headlineStoryId).filter fun i => !i.isEmpty).Nodup := by
    rw [hout, List.map_append, List.filter_append, List.nodup_append]
    refine ⟨hA_nodup, ?_, ?_⟩
    · rw [standalone_ids]
      apply List.Nodup.filter
      exact ((List.filter_sublist _).map _).nodup hnodup
    · intro i hiA hiB
      have hcontains := hA_used i hiA
      rw [standalone_ids, List.mem_filter, List.mem_map] at hiB
      obtain ⟨⟨h, hmem, rfl⟩, -⟩ := hiB
      rw [List.mem_filter] at hmem
      have hcf : (matchBodyLoop (partitionPools allStories).1
          (partitionPools allStories).2).2.contains h.storyId = false := by
        simpa using hmem.2
      have hct : (matchBodyLoop (partitionPools allStories).1
          (partitionPools allStories).2).2.contains h.storyId = true :=
        hcontains
      have hfalse : (true : Bool) = false := hct.symm.trans hcf
      exact absurd hfalse (by simp)
  -- counting
  have hstep1 : (matchHeadlinesWithContent allStories).countP
      (fun a => a.headlineStoryId == hid) =
      (((matchHeadlinesWithContent allStories).map
        fun a => a.headlineStoryId).countP fun i => i == hid) := by
    rw [List.countP_map]
    rfl
  have hstep2 : (((matchHeadlinesWithContent allStories).map
      fun a => a.headlineStoryId).countP fun i => i == hid) =
      ((((matchHeadlinesWithContent allStories).map
        fun a => a.headlineStoryId).filter
          fun i => !i.isEmpty).countP fun i => i == hid) := by
    rw [List.countP_filter]
    apply List.countP_congr
    intro x hx
    constructor
    · intro hxe
      have hxeq : x = hid := by simpa using hxe
      have h2 : (!x.isEmpty) = true := by
        rw [hxeq]
        simpa using hid_ne
      simp [hxe, h2]
    · intro hxe
      simp only [Bool.and_eq_true] at hxe
      exact hxe.1
  have hle : ∀ (L : List (List Char)), L.Nodup →
      (L.countP fun i => i == hid) ≤ 1 := by
    intro L
    induction L with
    | nil => intro _; simp
    | cons x rest ih =>
      intro hnd
      rcases List.nodup_cons.mp hnd with ⟨hx, hrest⟩
      rw [List.countP_cons]
      by_cases hxe : (x == hid) = true
      · have hx2 : x = hid := by simpa using hxe
        have hzero : (rest.countP fun i => i == hid) = 0 := by
          rw [List.countP_eq_zero]
          intro i hi hie
          have : i = hid := by simpa using hie
          exact hx (by rw [hx2, ← this]; exact hi)
        rw [hzero, if_pos hxe]
      · rw [if_neg hxe]
        simpa using ih hrest
  rw [hstep1, hstep2]
  exact hle _ hL

set_option maxRecDepth 1000000 in
unseal Rat.add Rat.mul Rat.inv Rat.sub in
theorem C6_witness :
    (matchHeadlinesWithContent [hStory, bStory]).countP
      (fun a => a.headlineStoryId == 'u' :: '1' :: ['0']) <= 1 :=
  C6_at_most_one_headline_use [hStory, bStory] (by decide)
    ('u' :: '1' :: ['0']) (by decide)

end Idml
